import Mathlib

/-!
# Verification of the youtube_elt warehouse sync engine

Shallow embedding of the reconciliation/upsert engine of the `youtube_elt`
repository:

* `staging_table` / `core_table`    — `src/elt/dwh/tasks.py`
* `insert_rows` / `update_rows` / `delete_rows`
                                    — `dags/datawarehouse/data_modification.py`
* `transform_duration`              — `src/elt/dwh/data_transformations.py`
* `upsert_daily_metrics`            — `src/elt/dwh/daily_metrics.py`

Database tables are modelled as Lean lists of row structures; the per-run
transaction is modelled by running the whole body on a working copy of the
committed rows and publishing the result only on success (commit); on any
raised error the committed rows are returned unchanged (rollback), exactly
mirroring the `try/commit` / `except/rollback` structure of the tasks.
The schema/table DDL (`CREATE ... IF NOT EXISTS`, committed separately before
the main transaction begins) does not touch rows of an existing table and is
therefore not represented in the row-level state.

Python `dict` records are modelled as structures of `Option` fields
(`none` = key absent); `row["k"]` raises `KeyError` when absent
(`Err.keyMissing`), `row.get("k")` yields the `Option`. Python truthiness of
an optional string (`if not video_id`) is `truthy` below. The psycopg2
store error is `Err.store`, injectable at a chosen write via `Store.failAt`
(writes are counted per executed INSERT/UPDATE/DELETE statement).
-/

deriving instance DecidableEq for Except

namespace YtElt

/-- Errors that can abort a run: a store-level (psycopg2) error, a Python
`KeyError` from a required mapping field, and an `isodate` parse/type error. -/
inductive Err where
  | store : Err
  | keyMissing : Err
  | parse : Err
deriving DecidableEq, Repr

/-- Python truthiness of an optional string: `None` and `""` are falsy. -/
def truthy : Option String → Option String
  | none => none
  | some s => if s = "" then none else some s

/-- Raw JSON record as loaded by `load_data` (a Python dict; absent key = `none`). -/
structure RawRecord where
  video_id : Option String := none
  title : Option String := none
  publishedAt : Option String := none
  duration : Option String := none
  viewCount : Option Int := none
  likeCount : Option Int := none
  commentCount : Option Int := none
deriving DecidableEq, Repr

/-- A row of `staging.yt_api` (the `Ingested_At` column, defaulted by the
database and never read by the sync code, is omitted). -/
structure StRow where
  video_id : String
  video_title : String
  upload_date : String
  duration : String
  video_views : Option Int := none
  likes_count : Option Int := none
  comments_count : Option Int := none
deriving DecidableEq, Repr

/-- `row["k"]`: mandatory dict access, `KeyError` when the key is absent. -/
def req {α : Type} : Option α → Except Err α
  | none => .error .keyMissing
  | some a => .ok a

/-- The parameter set built by `insert_rows`/`update_rows` for `layer="staging"`:
`video_id`, `title`, `publishedAt`, `duration` are mandatory dict accesses,
the three counters use `.get`. (Insert and update build the same set, only in
a different dict-literal order.) -/
def stagingParams (row : RawRecord) : Except Err StRow := do
  let vid ← req row.video_id
  let t ← req row.title
  let p ← req row.publishedAt
  let d ← req row.duration
  .ok { video_id := vid, video_title := t, upload_date := p, duration := d,
        video_views := row.viewCount, likes_count := row.likeCount,
        comments_count := row.commentCount }

/-- Transactional working state for one table: the working rows, the number of
write statements executed so far, and an injectable failure (the store raises
on the write whose 0-based index equals `failAt`, modelling a forced
psycopg2 error). -/
structure Store (ρ : Type) where
  rows : List ρ
  writes : Nat := 0
  failAt : Option Nat := none
deriving DecidableEq, Repr

/-- Execute one write statement against the store. -/
def execWrite {ρ : Type} (st : Store ρ) (f : List ρ → List ρ) : Except Err (Store ρ) :=
  if st.failAt = some st.writes then .error .store
  else .ok { st with rows := f st.rows, writes := st.writes + 1 }

/-- `UPDATE ... SET` of the staging layer: overwrites title, duration and the
three counters; `Video_ID` and `Upload_Date` are never written. -/
def setFields (p : StRow) (w : StRow) : StRow :=
  { w with video_title := p.video_title, duration := p.duration,
           video_views := p.video_views, likes_count := p.likes_count,
           comments_count := p.comments_count }

/-- The staging `UPDATE` row predicate:
`WHERE "Video_ID" = %(video_id)s AND "Upload_Date" = %(upload_date)s`. -/
def applyUpdate (p : StRow) (w : StRow) : StRow :=
  if w.video_id = p.video_id ∧ w.upload_date = p.upload_date then setFields p w else w

/-- `insert_rows(cur, schema, "staging", table, row)`: build the parameter set
(raising `KeyError` on a missing required field), then execute one INSERT. -/
def insert_rows (st : Store StRow) (row : RawRecord) : Except Err (Store StRow) := do
  let p ← stagingParams row
  execWrite st (fun rows => rows ++ [p])

/-- `update_rows(cur, schema, "staging", table, row)`: build the parameter set,
then execute one UPDATE keyed by `(Video_ID, Upload_Date)`. A zero-rows-affected
update is not an error. -/
def update_rows (st : Store StRow) (row : RawRecord) : Except Err (Store StRow) := do
  let p ← stagingParams row
  execWrite st (fun rows => rows.map (applyUpdate p))

/-- `delete_rows(cur, schema, table, ids_to_delete)`: one
`DELETE ... WHERE "Video_ID" = ANY(%s)` statement; `key` projects the
`Video_ID` column of the target table's row type. -/
def delete_rows {ρ : Type} (key : ρ → String) (st : Store ρ) (ids : List String) :
    Except Err (Store ρ) :=
  execWrite st (fun rows => rows.filter (fun w => decide (key w ∉ ids)))

/-- The four run counters logged by each sync task. -/
structure Counters where
  inserted : Nat := 0
  updated : Nat := 0
  skipped : Nat := 0
  deleted : Nat := 0
deriving DecidableEq, Repr

/-- The `Video_ID` column of the staging table. -/
def keys (rows : List StRow) : List String := rows.map (·.video_id)

/-- `{r.get("video_id") for r in raw_data if r.get("video_id")}` — the truthy
identity keys of the source collection (as a list; only membership and the
deduplicated form are ever used, matching Python set semantics). -/
def validIds (raw : List RawRecord) : List String :=
  raw.filterMap (fun r => truthy r.video_id)

/-- Loop state of the `staging_table` upsert loop: the store, the mutable
`table_ids` set and the counters. -/
structure LoopSt where
  store : Store StRow
  tableIds : List String
  c : Counters
deriving DecidableEq, Repr

/-- One iteration of the `staging_table` upsert loop. -/
def stagingStep (ls : LoopSt) (row : RawRecord) : Except Err LoopSt :=
  match truthy row.video_id with
  | none => .ok { ls with c := { ls.c with skipped := ls.c.skipped + 1 } }
  | some vid =>
    if vid ∈ ls.tableIds then do
      let st ← update_rows ls.store row
      .ok { ls with store := st, c := { ls.c with updated := ls.c.updated + 1 } }
    else do
      let st ← insert_rows ls.store row
      .ok { store := st, tableIds := ls.tableIds ++ [vid],
            c := { ls.c with inserted := ls.c.inserted + 1 } }

/-- The `staging_table` upsert loop over the raw JSON records. -/
def stagingLoop : LoopSt → List RawRecord → Except Err LoopSt
  | ls, [] => .ok ls
  | ls, r :: rest => do stagingLoop (← stagingStep ls r) rest

/-- Body of the `staging_table` transaction: fetch the current key set,
upsert every raw record, then batch-delete the ids no longer present in the
JSON snapshot (the delete call is skipped when that set is empty). -/
def stagingBody (failAt : Option Nat) (db : List StRow) (raw : List RawRecord) :
    Except Err (Store StRow × Counters) := do
  let init : LoopSt :=
    { store := { rows := db, writes := 0, failAt := failAt },
      tableIds := (keys db).dedup, c := {} }
  let ls ← stagingLoop init raw
  let idsToDelete := ls.tableIds.filter (fun x => decide (x ∉ validIds raw))
  if idsToDelete = [] then
    .ok (ls.store, ls.c)
  else do
    let st ← delete_rows StRow.video_id ls.store idsToDelete
    .ok (st, { ls.c with deleted := idsToDelete.length })

/-- The `staging_table` task: run the body as one transaction; on success the
working rows are committed, on any error the committed table is left at its
pre-run state (rollback) and the error is re-raised. The returned `Counters`
are the run report logged on success. -/
def staging_table (failAt : Option Nat) (db : List StRow) (raw : List RawRecord) :
    List StRow × Except Err Counters :=
  match stagingBody failAt db raw with
  | .ok (st, c) => (st.rows, .ok c)
  | .error e => (db, .error e)

/-! ## Duration classification (`data_transformations.transform_duration`) -/

/-- The value stored under the `"Duration"` key of an in-flight record: either
the raw ISO-8601 string (as fetched from staging) or the normalized
`datetime.timedelta` (total seconds) written back by the classifier. -/
inductive DurVal where
  | iso : String → DurVal
  | td : Nat → DurVal
deriving DecidableEq, Repr

/-- An in-flight core-layer record: a Python dict keyed by the staging column
names, as fetched by the core sync (`RealDictCursor`) and extended by
`transform_duration`. Absent key = `none`. The fetched `Ingested_At` column is
never read by the core upsert primitives and is omitted. -/
structure CoreRec where
  Video_ID : Option String := none
  Video_Title : Option String := none
  Upload_Date : Option String := none
  Duration : Option DurVal := none
  Video_Type : Option String := none
  Video_Views : Option Int := none
  Likes_Count : Option Int := none
  Comments_Count : Option Int := none
deriving DecidableEq, Repr

/-- Numeric value of a digit list (most significant first). -/
def digitsToNat (ds : List Char) : Nat :=
  ds.foldl (fun n c => 10 * n + (c.toNat - 48)) 0

/-- One optional `<digits><designator>` component of an ISO-8601 duration.
If `cs` starts with digits immediately followed by `desig`, consume them and
return the value; otherwise leave `cs` for the next component. -/
def comp (desig : Char) (cs : List Char) : Nat × List Char :=
  match cs.takeWhile Char.isDigit, cs.dropWhile Char.isDigit with
  | _ :: _, c :: rest => if c = desig then (digitsToNat (cs.takeWhile Char.isDigit), rest) else (0, cs)
  | _, _ => (0, cs)

/-- `isodate.parse_duration`, restricted to the sub-grammar
`P [nW] [nD] [T [nH] [nM] [nS]]` with non-negative integer components,
returning the total number of seconds. Durations this model does not accept
(years/months components, fractions, signs, the `P<date>T<time>` alternate
form, and malformed strings) yield `none`; in the Python code every such
input either raises in `parse_duration` itself (`ISO8601Error`) or raises in
the subsequent `Duration.totimedelta()` call, so `none` uniformly marks
"the transform raises" for the strings this development reasons about. -/
def parse_duration (s : String) : Option Nat :=
  match s.data with
  | 'P' :: rest =>
    if rest = [] then none
    else
      let (w, r1) := comp 'W' rest
      let (d, r2) := comp 'D' r1
      match r2 with
      | [] => some (w * 604800 + d * 86400)
      | 'T' :: tr =>
        let (h, t1) := comp 'H' tr
        let (m, t2) := comp 'M' t1
        let (sec, t3) := comp 'S' t2
        if t3 = [] then some (w * 604800 + d * 86400 + h * 3600 + m * 60 + sec) else none
      | _ => none
  | _ => none

/-- `transform_duration(row)`: if the `"Duration"` value is absent or falsy the
record is returned unchanged; otherwise the ISO string is parsed
(raising on failure), normalized to a timedelta, and `"Video_Type"` is set to
`"Shorts"` when the total seconds are `≤ 60` and `"Normal"` otherwise.
(A `timedelta` value under the key — impossible in the sync flows, where the
key always holds the staging `VARCHAR` — would be falsy at 0 seconds and make
`parse_duration` raise a `TypeError` otherwise.) -/
def transform_duration (row : CoreRec) : Except Err CoreRec :=
  match row.Duration with
  | none => .ok row
  | some (.iso s) =>
    if s = "" then .ok row
    else
      match parse_duration s with
      | none => .error .parse
      | some secs =>
        .ok { row with Duration := some (.td secs),
                       Video_Type := some (if secs ≤ 60 then "Shorts" else "Normal") }
  | some (.td n) => if n = 0 then .ok row else .error .parse

/-! ## Core layer (`core_table` and the `layer="core"` row primitives) -/

/-- A row of `core.yt_api` (again omitting the unread `Ingested_At` default
column). `Video_Type` is always supplied by the core insert/update. -/
structure CoRow where
  video_id : String
  video_title : String
  upload_date : String
  duration : DurVal
  video_type : String
  video_views : Option Int := none
  likes_count : Option Int := none
  comments_count : Option Int := none
deriving DecidableEq, Repr

/-- The parameter set built by `insert_rows`/`update_rows` for `layer="core"`:
`Video_ID`, `Video_Title`, `Upload_Date`, `Duration`, `Video_Type` are
mandatory dict accesses, the counters use `.get`. -/
def coreParams (row : CoreRec) : Except Err CoRow := do
  let vid ← req row.Video_ID
  let t ← req row.Video_Title
  let u ← req row.Upload_Date
  let d ← req row.Duration
  let ty ← req row.Video_Type
  .ok { video_id := vid, video_title := t, upload_date := u, duration := d,
        video_type := ty, video_views := row.Video_Views,
        likes_count := row.Likes_Count, comments_count := row.Comments_Count }

/-- Core-layer `UPDATE ... SET` field list (everything mutable; key columns
`Video_ID`/`Upload_Date` never written). -/
def coSetFields (p : CoRow) (w : CoRow) : CoRow :=
  { w with video_title := p.video_title, duration := p.duration,
           video_type := p.video_type, video_views := p.video_views,
           likes_count := p.likes_count, comments_count := p.comments_count }

/-- Core-layer `UPDATE` row predicate (`WHERE "Video_ID" = ... AND "Upload_Date" = ...`). -/
def coApplyUpdate (p : CoRow) (w : CoRow) : CoRow :=
  if w.video_id = p.video_id ∧ w.upload_date = p.upload_date then coSetFields p w else w

/-- `insert_rows` with `layer="core"`. -/
def co_insert_rows (st : Store CoRow) (row : CoreRec) : Except Err (Store CoRow) := do
  let p ← coreParams row
  execWrite st (fun rows => rows ++ [p])

/-- `update_rows` with `layer="core"`. -/
def co_update_rows (st : Store CoRow) (row : CoreRec) : Except Err (Store CoRow) := do
  let p ← coreParams row
  execWrite st (fun rows => rows.map (coApplyUpdate p))

/-- The `Video_ID` column of the core table. -/
def coKeys (rows : List CoRow) : List String := rows.map (·.video_id)

/-- The `SELECT ... FROM staging.yt_api` fetch of the core sync, as the dict
produced per staging row by `RealDictCursor`. -/
def coreFetch (w : StRow) : CoreRec :=
  { Video_ID := some w.video_id, Video_Title := some w.video_title,
    Upload_Date := some w.upload_date, Duration := some (.iso w.duration),
    Video_Views := w.video_views, Likes_Count := w.likes_count,
    Comments_Count := w.comments_count }

/-- The truthy identity keys of the fetched staging rows (the ids a successful
core run ends up having seen). -/
def coValidIds (srows : List StRow) : List String :=
  srows.filterMap (fun w => truthy (some w.video_id))

/-- Python `set.add`. -/
def addSet (l : List String) (x : String) : List String :=
  if x ∈ l then l else l ++ [x]

/-- Loop state of the `core_table` upsert loop: store, `table_ids`,
the accumulated `staging_ids` seen-set, and counters. -/
structure CoLoopSt where
  store : Store CoRow
  tableIds : List String
  stagingIds : List String
  c : Counters
deriving DecidableEq, Repr

/-- One iteration of the `core_table` upsert loop: skip falsy ids, record the
id as seen, transform, then update or insert. -/
def coreStep (ls : CoLoopSt) (row : CoreRec) : Except Err CoLoopSt :=
  match truthy row.Video_ID with
  | none => .ok { ls with c := { ls.c with skipped := ls.c.skipped + 1 } }
  | some vid => do
    let ls := { ls with stagingIds := addSet ls.stagingIds vid }
    let trow ← transform_duration row
    if vid ∈ ls.tableIds then do
      let st ← co_update_rows ls.store trow
      .ok { ls with store := st, c := { ls.c with updated := ls.c.updated + 1 } }
    else do
      let st ← co_insert_rows ls.store trow
      .ok { store := st, tableIds := ls.tableIds ++ [vid], stagingIds := ls.stagingIds,
            c := { ls.c with inserted := ls.c.inserted + 1 } }

/-- The `core_table` upsert loop over the fetched staging rows. -/
def coreLoop : CoLoopSt → List CoreRec → Except Err CoLoopSt
  | ls, [] => .ok ls
  | ls, r :: rest => do coreLoop (← coreStep ls r) rest

/-- Body of the `core_table` transaction: fetch core's key set and all staging
rows, upsert each (with the duration transform), then batch-delete core ids
absent from the seen staging ids. -/
def coreBody (failAt : Option Nat) (srows : List StRow) (db : List CoRow) :
    Except Err (Store CoRow × Counters) := do
  let fetched := srows.map coreFetch
  let init : CoLoopSt :=
    { store := { rows := db, writes := 0, failAt := failAt },
      tableIds := (coKeys db).dedup, stagingIds := [], c := {} }
  let ls ← coreLoop init fetched
  let idsToDelete := ls.tableIds.filter (fun x => decide (x ∉ ls.stagingIds))
  if idsToDelete = [] then
    .ok (ls.store, ls.c)
  else do
    let st ← delete_rows CoRow.video_id ls.store idsToDelete
    .ok (st, { ls.c with deleted := idsToDelete.length })

/-- The `core_table` task: one all-or-nothing transaction over the core table,
sourcing from the given staging rows; commit on success, rollback on error. -/
def core_table (failAt : Option Nat) (srows : List StRow) (db : List CoRow) :
    List CoRow × Except Err Counters :=
  match coreBody failAt srows db with
  | .ok (st, c) => (st.rows, .ok c)
  | .error e => (db, .error e)

/-! ## Daily metrics (`daily_metrics.upsert_daily_metrics`) -/

/-- A row of `core.yt_api_metrics_daily`. `ingested_at` is the
`TIMESTAMPTZ NOT NULL DEFAULT now()` column, filled at insert time. Dates and
timestamps are opaque scalars here. -/
structure MRow where
  video_id : String
  snapshot_date : String
  video_views : Option Int := none
  likes_count : Option Int := none
  comments_count : Option Int := none
  ingested_at : String
deriving DecidableEq, Repr

/-- The four-column dict fetched from `core.yt_api` by `daily_metrics_table`. -/
structure MetricsSrc where
  Video_ID : Option String := none
  Video_Views : Option Int := none
  Likes_Count : Option Int := none
  Comments_Count : Option Int := none
deriving DecidableEq, Repr

/-- `upsert_daily_metrics(cur, row, snapshot_date=...)`: one
`INSERT ... ON CONFLICT ("Video_ID","Snapshot_Date") DO UPDATE SET` statement
overwriting exactly the three count columns. `snapshot_date or date.today()`
is `sd.getD today` (a supplied `date` is always truthy). `today` is the
wall-clock date, `now` the store's `now()` used for the `Ingested_At`
default on a fresh insert. -/
def upsert_daily_metrics (today now : String) (row : MetricsSrc)
    (sd : Option String) (tbl : List MRow) : Except Err (List MRow) := do
  let vid ← req row.Video_ID
  let key := sd.getD today
  if tbl.any (fun w => decide (w.video_id = vid ∧ w.snapshot_date = key)) then
    .ok (tbl.map (fun w =>
      if w.video_id = vid ∧ w.snapshot_date = key then
        { w with video_views := row.Video_Views, likes_count := row.Likes_Count,
                 comments_count := row.Comments_Count }
      else w))
  else
    .ok (tbl ++ [{ video_id := vid, snapshot_date := key,
                   video_views := row.Video_Views, likes_count := row.Likes_Count,
                   comments_count := row.Comments_Count, ingested_at := now }])

/-! ## Proof-layer helpers -/

/-- The source records with a truthy identity key (those the loop upserts). -/
def validRecs (raw : List RawRecord) : List RawRecord :=
  raw.filter (fun r => (truthy r.video_id).isSome)

/-- The source records with a missing/falsy identity key (those the loop skips). -/
def invalidRecs (raw : List RawRecord) : List RawRecord :=
  raw.filter (fun r => (truthy r.video_id).isNone)

/-- The effect of one source record's staging UPDATE on one row (no-op when the
record's parameter set cannot be built). -/
def applyRec (r : RawRecord) (w : StRow) : StRow :=
  match stagingParams r with
  | .ok p => applyUpdate p w
  | .error _ => w

/-- The cumulative effect of a record sequence's staging UPDATEs on one row. -/
def applyAll (recs : List RawRecord) (w : StRow) : StRow :=
  recs.foldl (fun w r => applyRec r w) w

/-- The truthy identity keys of a list of in-flight core records. -/
def recValidIds (rows : List CoreRec) : List String :=
  rows.filterMap (fun r => truthy r.Video_ID)

/-! ### Concrete sample data (used to exercise the theorems below) -/

/-- A well-formed raw JSON record. -/
def rayA : RawRecord :=
  { video_id := some "aaa", title := some "Title A",
    publishedAt := some "2026-01-01T00:00:00Z", duration := some "PT1S" }

/-- A second well-formed raw JSON record with a distinct id. -/
def rayB : RawRecord :=
  { video_id := some "bbb", title := some "Title B",
    publishedAt := some "2026-01-02T00:00:00Z", duration := some "PT2M" }

/-- The staging row `rayA` inserts. -/
def rowA : StRow :=
  { video_id := "aaa", video_title := "Title A",
    upload_date := "2026-01-01T00:00:00Z", duration := "PT1S" }

/-- The staging row `rayB` inserts. -/
def rowB : StRow :=
  { video_id := "bbb", video_title := "Title B",
    upload_date := "2026-01-02T00:00:00Z", duration := "PT2M" }

/-- The core row produced from `rowA` (1 second → Shorts). -/
def coRowA : CoRow :=
  { video_id := "aaa", video_title := "Title A",
    upload_date := "2026-01-01T00:00:00Z", duration := .td 1, video_type := "Shorts" }

/-- First occurrence of a duplicated source id. -/
def dupFirst : RawRecord :=
  { video_id := some "xyz", title := some "first title",
    publishedAt := some "2026-01-01", duration := some "PT5S" }

/-- Second occurrence of the duplicated id, with a different upload timestamp. -/
def dupSecond : RawRecord :=
  { video_id := some "xyz", title := some "second title",
    publishedAt := some "2026-01-02", duration := some "PT6S" }

/-- Second occurrence of the duplicated id with the same upload timestamp. -/
def dupSecondSame : RawRecord :=
  { video_id := some "xyz", title := some "second title",
    publishedAt := some "2026-01-01", duration := some "PT6S" }

/-- The parameter set of `dupFirst`. -/
def dupP1 : StRow :=
  { video_id := "xyz", video_title := "first title",
    upload_date := "2026-01-01", duration := "PT5S" }

/-- The parameter set of `dupSecondSame`. -/
def dupP2 : StRow :=
  { video_id := "xyz", video_title := "second title",
    upload_date := "2026-01-01", duration := "PT6S" }

/-- A record with a truthy id but no `title` key (required for the staging
parameter set). -/
def badRec : RawRecord :=
  { video_id := some "bad", publishedAt := some "2026-03-01", duration := some "PT9S" }

theorem truthy_eq_some {o : Option String} {v : String} :
    truthy o = some v ↔ o = some v ∧ v ≠ "" := by
  cases o with
  | none => simp [truthy]
  | some s =>
    simp only [truthy]
    by_cases h : s = "" <;> simp [h] <;> rintro rfl <;> simp [h]

theorem stagingParams_video_id {r : RawRecord} {p : StRow}
    (h : stagingParams r = .ok p) : r.video_id = some p.video_id := by
  cases hv : r.video_id with
  | none => rw [stagingParams, hv] at h; simp [req, Bind.bind, Except.bind] at h
  | some vid =>
    rw [stagingParams, hv] at h
    cases ht : r.title with
    | none => rw [ht] at h; simp [req, Bind.bind, Except.bind] at h
    | some t =>
      cases hp : r.publishedAt with
      | none => rw [ht, hp] at h; simp [req, Bind.bind, Except.bind] at h
      | some u =>
        cases hd : r.duration with
        | none => rw [ht, hp, hd] at h; simp [req, Bind.bind, Except.bind] at h
        | some d =>
          rw [ht, hp, hd] at h
          simp only [req, Bind.bind, Except.bind, Except.ok.injEq] at h
          rw [← h]

theorem keys_append (a b : List StRow) : keys (a ++ b) = keys a ++ keys b := by
  simp [keys]

theorem keys_map_applyUpdate (p : StRow) (rows : List StRow) :
    keys (rows.map (applyUpdate p)) = keys rows := by
  simp only [keys, List.map_map]
  refine List.map_congr_left (fun w _ => ?_)
  simp only [Function.comp_apply, applyUpdate]
  split <;> simp [setFields]

theorem validIds_cons (r : RawRecord) (rest : List RawRecord) :
    validIds (r :: rest) =
      match truthy r.video_id with
      | none => validIds rest
      | some v => v :: validIds rest := by
  cases h : truthy r.video_id <;> simp [validIds, List.filterMap_cons, h]

theorem stagingLoop_nil (ls : LoopSt) : stagingLoop ls [] = .ok ls := rfl

theorem stagingLoop_cons (ls : LoopSt) (r : RawRecord) (rest : List RawRecord) :
    stagingLoop ls (r :: rest) = (stagingStep ls r).bind (fun x => stagingLoop x rest) := by
  cases h : stagingStep ls r <;> simp [stagingLoop, Bind.bind, h, Except.bind]

theorem stagingStep_skip {ls : LoopSt} {r : RawRecord} (h : truthy r.video_id = none) :
    stagingStep ls r = .ok { ls with c := { ls.c with skipped := ls.c.skipped + 1 } } := by
  simp [stagingStep, h]

theorem stagingStep_update (ls : LoopSt) {r : RawRecord} {vid : String} {p : StRow}
    (hv : truthy r.video_id = some vid) (hm : vid ∈ ls.tableIds)
    (hp : stagingParams r = .ok p) (hf : ¬ ls.store.failAt = some ls.store.writes) :
    stagingStep ls r = .ok
      { ls with
        store := { rows := ls.store.rows.map (applyUpdate p),
                   writes := ls.store.writes + 1, failAt := ls.store.failAt },
        c := { ls.c with updated := ls.c.updated + 1 } } := by
  simp [stagingStep, hv, hm, update_rows, hp, execWrite, hf, Bind.bind, Except.bind]

theorem stagingStep_insert (ls : LoopSt) {r : RawRecord} {vid : String} {p : StRow}
    (hv : truthy r.video_id = some vid) (hm : vid ∉ ls.tableIds)
    (hp : stagingParams r = .ok p) (hf : ¬ ls.store.failAt = some ls.store.writes) :
    stagingStep ls r = .ok
      { store := { rows := ls.store.rows ++ [p],
                   writes := ls.store.writes + 1, failAt := ls.store.failAt },
        tableIds := ls.tableIds ++ [vid],
        c := { ls.c with inserted := ls.c.inserted + 1 } } := by
  simp [stagingStep, hv, hm, insert_rows, hp, execWrite, hf, Bind.bind, Except.bind]

theorem stagingStep_err_params {ls : LoopSt} {r : RawRecord} {vid : String} {e : Err}
    (hv : truthy r.video_id = some vid) (hp : stagingParams r = .error e) :
    stagingStep ls r = .error e := by
  by_cases hm : vid ∈ ls.tableIds <;>
    simp [stagingStep, hv, hm, update_rows, insert_rows, hp, Bind.bind, Except.bind]

theorem stagingStep_err_store {ls : LoopSt} {r : RawRecord} {vid : String} {p : StRow}
    (hv : truthy r.video_id = some vid) (hp : stagingParams r = .ok p)
    (hf : ls.store.failAt = some ls.store.writes) :
    stagingStep ls r = .error .store := by
  by_cases hm : vid ∈ ls.tableIds <;>
    simp [stagingStep, hv, hm, update_rows, insert_rows, hp, execWrite, hf,
          Bind.bind, Except.bind]

/-- Inversion of one successful upsert-loop iteration. -/
theorem stagingStep_ok_inv {ls ls1 : LoopSt} {r : RawRecord}
    (h : stagingStep ls r = .ok ls1) :
    (truthy r.video_id = none ∧
       ls1 = { ls with c := { ls.c with skipped := ls.c.skipped + 1 } }) ∨
    (∃ vid p, truthy r.video_id = some vid ∧ stagingParams r = .ok p ∧
       ¬ ls.store.failAt = some ls.store.writes ∧
       ((vid ∈ ls.tableIds ∧ ls1 =
          { ls with
            store := { rows := ls.store.rows.map (applyUpdate p),
                       writes := ls.store.writes + 1, failAt := ls.store.failAt },
            c := { ls.c with updated := ls.c.updated + 1 } }) ∨
        (vid ∉ ls.tableIds ∧ ls1 =
          { store := { rows := ls.store.rows ++ [p],
                       writes := ls.store.writes + 1, failAt := ls.store.failAt },
            tableIds := ls.tableIds ++ [vid],
            c := { ls.c with inserted := ls.c.inserted + 1 } }))) := by
  cases hv : truthy r.video_id with
  | none =>
    left
    rw [stagingStep_skip hv] at h
    exact ⟨rfl, by injection h with h; exact h.symm⟩
  | some vid =>
    right
    cases hp : stagingParams r with
    | error e => rw [stagingStep_err_params hv hp] at h; cases h
    | ok p =>
      by_cases hf : ls.store.failAt = some ls.store.writes
      · rw [stagingStep_err_store hv hp hf] at h; cases h
      · refine ⟨vid, p, rfl, rfl, hf, ?_⟩
        by_cases hm : vid ∈ ls.tableIds
        · left
          rw [stagingStep_update ls hv hm hp hf] at h
          exact ⟨hm, by injection h with h; exact h.symm⟩
        · right
          rw [stagingStep_insert ls hv hm hp hf] at h
          exact ⟨hm, by injection h with h; exact h.symm⟩

/-- Structural facts about a successful upsert loop: the failure setting is
untouched, the write counter only grows, no deletion is counted, each source
record feeds exactly one of the three upsert counters, the key column and the
`table_ids` set both grow by the same list of freshly inserted ids (all of
them valid source ids), every valid source id ends up in `table_ids`, and
every record that was reached with a truthy id has a buildable parameter set. -/
theorem stagingLoop_shape :
    ∀ (raw : List RawRecord) (ls ls' : LoopSt), stagingLoop ls raw = .ok ls' →
    ls'.store.failAt = ls.store.failAt ∧
    ls.store.writes ≤ ls'.store.writes ∧
    ls'.c.deleted = ls.c.deleted ∧
    ls'.c.inserted + ls'.c.updated + ls'.c.skipped
      = ls.c.inserted + ls.c.updated + ls.c.skipped + raw.length ∧
    (∀ r ∈ raw, (truthy r.video_id).isSome → ∃ p, stagingParams r = .ok p) ∧
    ∃ extra : List String,
      ls'.tableIds = ls.tableIds ++ extra ∧
      keys ls'.store.rows = keys ls.store.rows ++ extra ∧
      (∀ x ∈ extra, x ∈ validIds raw) ∧
      (∀ x ∈ validIds raw, x ∈ ls'.tableIds) := by
  intro raw
  induction raw with
  | nil =>
    intro ls ls' h
    rw [stagingLoop_nil] at h
    injection h with h
    subst h
    exact ⟨rfl, le_rfl, rfl, rfl, by simp, [], by simp, by simp, by simp,
           by simp [validIds]⟩
  | cons r rest ih =>
    intro ls ls' h
    rw [stagingLoop_cons] at h
    cases hs : stagingStep ls r with
    | error e => rw [hs] at h; cases h
    | ok ls1 =>
      rw [hs] at h
      simp only [Except.bind] at h
      obtain ⟨hfail, hwr, hdel, hsum, hreq, extra, hids, hkeys, hev, hvi⟩ := ih ls1 ls' h
      rcases stagingStep_ok_inv hs with
        ⟨hv, rfl⟩ | ⟨vid, p, hv, hp, _, ⟨hm, rfl⟩ | ⟨hm, rfl⟩⟩
      · -- skipped record
        refine ⟨hfail, hwr, hdel, ?_, ?_, extra, hids, hkeys, ?_, ?_⟩
        · simp only [hsum]; simp; omega
        · intro q hq hq'
          rcases List.mem_cons.mp hq with rfl | hq
          · simp [hv] at hq'
          · exact hreq q hq hq'
        · intro x hx; have := hev x hx; rw [validIds_cons, hv]; exact this
        · intro x hx; rw [validIds_cons, hv] at hx; exact hvi x hx
      · -- updated record
        refine ⟨hfail, le_trans (Nat.le_succ _) hwr, hdel, ?_, ?_, extra, hids, ?_, ?_, ?_⟩
        · simp only [hsum]; simp; omega
        · intro q hq hq'
          rcases List.mem_cons.mp hq with rfl | hq
          · exact ⟨p, hp⟩
          · exact hreq q hq hq'
        · rw [hkeys, keys_map_applyUpdate]
        · intro x hx; have := hev x hx; rw [validIds_cons, hv]
          exact List.mem_cons_of_mem _ this
        · intro x hx; rw [validIds_cons, hv] at hx
          rcases List.mem_cons.mp hx with rfl | hx
          · rw [hids]; exact List.mem_append_left _ hm
          · exact hvi x hx
      · -- inserted record
        refine ⟨hfail, le_trans (Nat.le_succ _) hwr, hdel, ?_, ?_, vid :: extra, ?_, ?_, ?_, ?_⟩
        · simp only [hsum]; simp; omega
        · intro q hq hq'
          rcases List.mem_cons.mp hq with rfl | hq
          · exact ⟨p, hp⟩
          · exact hreq q hq hq'
        · rw [hids]; simp
        · rw [hkeys, keys_append]
          have hpv : p.video_id = vid := by
            have := stagingParams_video_id hp
            rw [(truthy_eq_some.mp hv).1] at this
            injection this with this
            exact this.symm
          simp [keys, hpv]
        · intro x hx
          rcases List.mem_cons.mp hx with rfl | hx
          · rw [validIds_cons, hv]; exact List.mem_cons_self _ _
          · rw [validIds_cons, hv]; exact List.mem_cons_of_mem _ (hev x hx)
        · intro x hx; rw [validIds_cons, hv] at hx
          rcases List.mem_cons.mp hx with rfl | hx
          · rw [hids]
            exact List.mem_append_left _ (List.mem_append_right _ (List.mem_singleton.mpr rfl))
          · exact hvi x hx

theorem keys_filter_del (rows : List StRow) (ids : List String) (x : String) :
    x ∈ keys (rows.filter (fun w => decide (w.video_id ∉ ids))) ↔
      x ∈ keys rows ∧ x ∉ ids := by
  simp only [keys, List.mem_map, List.mem_filter, decide_eq_true_eq]
  constructor
  · rintro ⟨a, ⟨ha, hna⟩, rfl⟩; exact ⟨⟨a, ha, rfl⟩, hna⟩
  · rintro ⟨⟨a, ha, rfl⟩, hx⟩; exact ⟨a, ⟨ha, hx⟩, rfl⟩

/-- Inversion of a successful `staging_table` transaction body: the loop
succeeded, and either the delete set was empty (call elided) or one batch
delete ran. -/
theorem stagingBody_ok_inv {failAt : Option Nat} {db : List StRow}
    {raw : List RawRecord} {st : Store StRow} {c : Counters}
    (h : stagingBody failAt db raw = .ok (st, c)) :
    ∃ ls, stagingLoop
        { store := { rows := db, writes := 0, failAt := failAt },
          tableIds := (keys db).dedup, c := {} } raw = .ok ls ∧
      ((ls.tableIds.filter (fun x => decide (x ∉ validIds raw)) = [] ∧
        st = ls.store ∧ c = ls.c) ∨
       (ls.tableIds.filter (fun x => decide (x ∉ validIds raw)) ≠ [] ∧
        ¬ ls.store.failAt = some ls.store.writes ∧
        st = { rows := ls.store.rows.filter (fun w =>
                 decide (w.video_id ∉ ls.tableIds.filter (fun x => decide (x ∉ validIds raw)))),
               writes := ls.store.writes + 1, failAt := ls.store.failAt } ∧
        c = { ls.c with deleted :=
                (ls.tableIds.filter (fun x => decide (x ∉ validIds raw))).length })) := by
  simp only [stagingBody, Bind.bind] at h
  cases hl : stagingLoop
      { store := { rows := db, writes := 0, failAt := failAt },
        tableIds := (keys db).dedup, c := {} } raw with
  | error e => rw [hl] at h; cases h
  | ok ls =>
    rw [hl] at h
    simp only [Except.bind] at h
    refine ⟨ls, rfl, ?_⟩
    by_cases hD : ls.tableIds.filter (fun x => decide (x ∉ validIds raw)) = []
    · rw [if_pos hD] at h
      injection h with h
      exact Or.inl ⟨hD, congrArg Prod.fst h.symm, congrArg Prod.snd h.symm⟩
    · rw [if_neg hD] at h
      simp only [delete_rows, execWrite] at h
      by_cases hf : ls.store.failAt = some ls.store.writes
      · rw [if_pos hf] at h; cases h
      · rw [if_neg hf] at h
        simp only [Except.bind] at h
        injection h with h
        exact Or.inr ⟨hD, hf, congrArg Prod.fst h.symm, congrArg Prod.snd h.symm⟩

theorem mem_dedup_keys {db : List StRow} {x : String} :
    x ∈ (keys db).dedup ↔ x ∈ keys db := List.mem_dedup

/-- Key-set characterization of a successful staging run: the final key column
holds exactly the truthy source ids. -/
theorem staging_coverage {db : List StRow} {raw : List RawRecord}
    {rows' : List StRow} {c : Counters}
    (h : staging_table none db raw = (rows', .ok c)) :
    ∀ x, x ∈ keys rows' ↔ x ∈ validIds raw := by
  unfold staging_table at h
  cases hb : stagingBody none db raw with
  | error e => rw [hb] at h; injection h with h1 h2; cases h2
  | ok v =>
    obtain ⟨st, c0⟩ := v
    rw [hb] at h
    injection h with h1 h2
    subst h1
    injection h2 with h2
    subst h2
    obtain ⟨ls, hl, hpost⟩ := stagingBody_ok_inv hb
    obtain ⟨hfail, -, -, -, -, extra, hids, hkeys, hev, hvi⟩ :=
      stagingLoop_shape raw _ ls hl
    intro x
    have hmemTable : ∀ y, y ∈ ls.tableIds ↔ (y ∈ keys db ∨ y ∈ extra) := by
      intro y
      rw [hids]
      simp [mem_dedup_keys]
    have hmemDel : ∀ y, y ∈ ls.tableIds.filter (fun z => decide (z ∉ validIds raw)) ↔
        (y ∈ ls.tableIds ∧ y ∉ validIds raw) := by
      intro y; simp [List.mem_filter]
    rcases hpost with ⟨hD, rfl, rfl⟩ | ⟨hD, -, rfl, rfl⟩
    · -- delete elided: every current key is already a valid source id
      rw [hkeys]
      constructor
      · intro hx
        rcases List.mem_append.mp hx with hx | hx
        · by_contra hnv
          have : x ∈ ls.tableIds.filter (fun z => decide (z ∉ validIds raw)) :=
            (hmemDel x).mpr ⟨(hmemTable x).mpr (Or.inl hx), hnv⟩
          rw [hD] at this
          cases this
        · exact hev x hx
      · intro hx
        have := hvi x hx
        rcases (hmemTable x).mp this with hx' | hx'
        · exact List.mem_append_left _ hx'
        · exact List.mem_append_right _ hx'
    · -- delete executed
      rw [keys_filter_del]
      constructor
      · rintro ⟨hx, hnd⟩
        rw [hkeys] at hx
        rcases List.mem_append.mp hx with hx | hx
        · by_contra hnv
          exact hnd ((hmemDel x).mpr ⟨(hmemTable x).mpr (Or.inl hx), hnv⟩)
        · exact hev x hx
      · intro hx
        refine ⟨?_, ?_⟩
        · rw [hkeys]
          rcases (hmemTable x).mp (hvi x hx) with hx' | hx'
          · exact List.mem_append_left _ hx'
          · exact List.mem_append_right _ hx'
        · intro hmem
          exact ((hmemDel x).mp hmem).2 hx

/-- Counter accounting of a successful staging run. -/
theorem staging_counters {db : List StRow} {raw : List RawRecord}
    {rows' : List StRow} {c : Counters}
    (h : staging_table none db raw = (rows', .ok c)) :
    c.inserted + c.updated + c.skipped = raw.length ∧
    c.deleted = ((keys db).dedup.filter (fun x => decide (x ∉ validIds raw))).length := by
  unfold staging_table at h
  cases hb : stagingBody none db raw with
  | error e => rw [hb] at h; injection h with h1 h2; cases h2
  | ok v =>
    obtain ⟨st, c0⟩ := v
    rw [hb] at h
    injection h with h1 h2
    injection h2 with h2
    subst h2
    obtain ⟨ls, hl, hpost⟩ := stagingBody_ok_inv hb
    obtain ⟨-, -, hdel, hsum, -, extra, hids, -, hev, -⟩ := stagingLoop_shape raw _ ls hl
    simp only at hdel hsum
    have hfsplit : ls.tableIds.filter (fun x => decide (x ∉ validIds raw)) =
        (keys db).dedup.filter (fun x => decide (x ∉ validIds raw)) := by
      rw [hids, List.filter_append]
      have : extra.filter (fun x => decide (x ∉ validIds raw)) = [] :=
        List.filter_eq_nil_iff.mpr (fun x hx => by simp [hev x hx])
      rw [this, List.append_nil]
    rcases hpost with ⟨hD, -, rfl⟩ | ⟨hD, -, -, rfl⟩
    · refine ⟨by omega, ?_⟩
      rw [hdel, ← hfsplit, hD]
      rfl
    · refine ⟨by simp; omega, ?_⟩
      show (ls.tableIds.filter (fun x => decide (x ∉ validIds raw))).length = _
      rw [hfsplit]

/-- `staging_table` with an empty source deletes every existing row and
reports only deletions. -/
theorem staging_empty_source (db : List StRow) :
    staging_table none db [] =
      ([], .ok { inserted := 0, updated := 0, skipped := 0,
                 deleted := (keys db).dedup.length }) := by
  have hfilter : ((keys db).dedup.filter (fun x => decide (x ∉ validIds []))) =
      (keys db).dedup := by
    simp [validIds]
  simp only [staging_table, stagingBody, stagingLoop_nil, Bind.bind, Except.bind, hfilter]
  by_cases h0 : (keys db).dedup = []
  · rw [if_pos h0]
    have hdb : db = [] := by
      have := (List.dedup_eq_nil _).mp h0
      cases db with
      | nil => rfl
      | cons a l => simp [keys] at this
    subst hdb
    simp [h0]
  · rw [if_neg h0]
    have hrows : db.filter (fun w => decide (w.video_id ∉ (keys db).dedup)) = [] :=
      List.filter_eq_nil_iff.mpr (fun w hw => by
        simp [mem_dedup_keys, keys]
        exact ⟨w, hw, rfl⟩)
    simp [delete_rows, execWrite, Except.bind, hrows]
    intro a ha
    exact List.mem_map_of_mem _ ha

/-- Lockstep simulation: a run that succeeds without failure injection, when
re-run with a store failure injected at write index `n` (not yet reached),
runs identically until the `n`-th write, where it raises iff the successful
run would still have performed that write. -/
theorem stagingLoop_inject :
    ∀ (raw : List RawRecord) (ls ls' : LoopSt) (n : Nat),
    stagingLoop ls raw = .ok ls' →
    ls.store.failAt = none →
    ls.store.writes ≤ n →
    stagingLoop { ls with store := { ls.store with failAt := some n } } raw =
      (if n < ls'.store.writes then .error .store
       else .ok { ls' with store := { ls'.store with failAt := some n } }) := by
  intro raw
  induction raw with
  | nil =>
    intro ls ls' n h hf hw
    rw [stagingLoop_nil] at h
    injection h with h
    subst h
    rw [stagingLoop_nil, if_neg (by omega)]
  | cons r rest ih =>
    intro ls ls' n h hf hw
    rw [stagingLoop_cons] at h
    cases hs : stagingStep ls r with
    | error e => rw [hs] at h; cases h
    | ok ls1 =>
      rw [hs] at h
      simp only [Except.bind] at h
      rw [stagingLoop_cons]
      rcases stagingStep_ok_inv hs with
        ⟨hv, rfl⟩ | ⟨vid, p, hv, hp, -, ⟨hm, rfl⟩ | ⟨hm, rfl⟩⟩
      · -- skipped: no store access
        rw [stagingStep_skip hv]
        simp only [Except.bind]
        exact ih _ ls' n h hf hw
      · -- update write
        by_cases hn : n = ls.store.writes
        · subst hn
          rw [stagingStep_err_store hv hp rfl]
          have hmono := (stagingLoop_shape rest _ ls' h).2.1
          simp only at hmono
          rw [if_pos (by omega)]
          rfl
        · have hstep := stagingStep_update { ls with store := { ls.store with failAt := some n } }
            hv hm hp (by simp; omega)
          rw [hstep]
          simp only [Except.bind]
          have := ih { ls with
              store := { rows := ls.store.rows.map (applyUpdate p),
                         writes := ls.store.writes + 1, failAt := ls.store.failAt },
              c := { ls.c with updated := ls.c.updated + 1 } } ls' n h (by simp [hf]) (by simp; omega)
          rw [hf] at this
          exact this
      · -- insert write
        by_cases hn : n = ls.store.writes
        · subst hn
          rw [stagingStep_err_store hv hp rfl]
          have hmono := (stagingLoop_shape rest _ ls' h).2.1
          simp only at hmono
          rw [if_pos (by omega)]
          rfl
        · have hstep := stagingStep_insert { ls with store := { ls.store with failAt := some n } }
            hv hm hp (by simp; omega)
          rw [hstep]
          simp only [Except.bind]
          have := ih { store := { rows := ls.store.rows ++ [p],
                                  writes := ls.store.writes + 1, failAt := ls.store.failAt },
                       tableIds := ls.tableIds ++ [vid],
                       c := { ls.c with inserted := ls.c.inserted + 1 } } ls' n h (by simp [hf]) (by simp; omega)
          rw [hf] at this
          exact this

/-- Injecting a store failure at any write index below the total write count
of a successful run makes the whole transaction body raise the store error. -/
theorem stagingBody_inject {db : List StRow} {raw : List RawRecord}
    {st : Store StRow} {c : Counters} {n : Nat}
    (h : stagingBody none db raw = .ok (st, c)) (hn : n < st.writes) :
    stagingBody (some n) db raw = .error .store := by
  obtain ⟨ls, hl, hpost⟩ := stagingBody_ok_inv h
  have hinj := stagingLoop_inject raw _ ls n hl rfl (by simp)
  have hinj' : stagingLoop
      { store := { rows := db, writes := 0, failAt := some n },
        tableIds := (keys db).dedup, c := {} } raw =
      (if n < ls.store.writes then .error .store
       else .ok { ls with store := { ls.store with failAt := some n } }) := hinj
  simp only [stagingBody, Bind.bind]
  by_cases hlt : n < ls.store.writes
  · rw [hinj', if_pos hlt]
    rfl
  · rw [hinj', if_neg hlt]
    simp only [Except.bind]
    rcases hpost with ⟨hD, hst, -⟩ | ⟨hD, -, hst, -⟩
    · exact absurd (hst ▸ hn) hlt
    · have hwr : st.writes = ls.store.writes + 1 := by rw [hst]
      have hne : n = ls.store.writes := by omega
      rw [if_neg hD]
      simp only [delete_rows, execWrite]
      rw [if_pos (by simp [hne])]

theorem params_vid {r : RawRecord} {vid : String} {p : StRow}
    (hv : truthy r.video_id = some vid) (hp : stagingParams r = .ok p) :
    p.video_id = vid := by
  have := stagingParams_video_id hp
  rw [(truthy_eq_some.mp hv).1] at this
  injection this with this
  exact this.symm

theorem applyUpdate_video_id (p w : StRow) : (applyUpdate p w).video_id = w.video_id := by
  simp only [applyUpdate]; split <;> simp [setFields]

theorem applyUpdate_upload_date (p w : StRow) :
    (applyUpdate p w).upload_date = w.upload_date := by
  simp only [applyUpdate]; split <;> simp [setFields]

theorem applyRec_video_id (r : RawRecord) (w : StRow) :
    (applyRec r w).video_id = w.video_id := by
  simp only [applyRec]; split
  · exact applyUpdate_video_id _ _
  · rfl

theorem applyRec_upload_date (r : RawRecord) (w : StRow) :
    (applyRec r w).upload_date = w.upload_date := by
  simp only [applyRec]; split
  · exact applyUpdate_upload_date _ _
  · rfl

theorem applyAll_nil (w : StRow) : applyAll [] w = w := rfl

theorem applyAll_cons (r : RawRecord) (recs : List RawRecord) (w : StRow) :
    applyAll (r :: recs) w = applyAll recs (applyRec r w) := rfl

theorem applyAll_video_id (recs : List RawRecord) (w : StRow) :
    (applyAll recs w).video_id = w.video_id := by
  induction recs generalizing w with
  | nil => rfl
  | cons r rest ih => rw [applyAll_cons, ih, applyRec_video_id]

theorem applyAll_upload_date (recs : List RawRecord) (w : StRow) :
    (applyAll recs w).upload_date = w.upload_date := by
  induction recs generalizing w with
  | nil => rfl
  | cons r rest ih => rw [applyAll_cons, ih, applyRec_upload_date]

theorem setFields_eq_params {p y : StRow}
    (h1 : y.video_id = p.video_id) (h2 : y.upload_date = p.upload_date) :
    setFields p y = p := by
  cases p; cases y; simp_all [setFields]

/-- Re-applying the same sequence of staging UPDATEs is a no-op (last write
wins, and the key columns never change). -/
theorem applyAll_idem (recs : List RawRecord) (w : StRow) :
    applyAll recs (applyAll recs w) = applyAll recs w := by
  induction recs generalizing w with
  | nil => rfl
  | cons r rest ih =>
    rw [applyAll_cons, applyAll_cons]
    cases hp : stagingParams r with
    | error e =>
      have hnoop : ∀ y, applyRec r y = y := fun y => by simp [applyRec, hp]
      rw [hnoop, hnoop]
      exact ih _
    | ok p =>
      have harec : ∀ y, applyRec r y = applyUpdate p y := fun y => by simp [applyRec, hp]
      simp only [harec]
      by_cases hmz : w.video_id = p.video_id ∧ w.upload_date = p.upload_date
      · have hw : applyUpdate p w = p := by
          rw [applyUpdate, if_pos hmz]
          exact setFields_eq_params hmz.1 hmz.2
        have hz : applyUpdate p (applyAll rest (applyUpdate p w)) = p := by
          rw [applyUpdate, if_pos ⟨by rw [applyAll_video_id, applyUpdate_video_id]; exact hmz.1,
                                   by rw [applyAll_upload_date, applyUpdate_upload_date]; exact hmz.2⟩]
          exact setFields_eq_params
            (by rw [applyAll_video_id, applyUpdate_video_id]; exact hmz.1)
            (by rw [applyAll_upload_date, applyUpdate_upload_date]; exact hmz.2)
        rw [hz, hw]
      · have hw : applyUpdate p w = w := by rw [applyUpdate, if_neg hmz]
        have hz : applyUpdate p (applyAll rest (applyUpdate p w)) =
            applyAll rest (applyUpdate p w) := by
          rw [hw, applyUpdate, if_neg (by
            rw [applyAll_video_id, applyAll_upload_date]; exact hmz)]
        rw [hz, hw]
        exact ih _

theorem loopSt_ext {a b : LoopSt}
    (h1 : a.store.rows = b.store.rows) (h2 : a.store.writes = b.store.writes)
    (h3 : a.store.failAt = b.store.failAt) (h4 : a.tableIds = b.tableIds)
    (h5 : a.c.inserted = b.c.inserted) (h6 : a.c.updated = b.c.updated)
    (h7 : a.c.skipped = b.c.skipped) (h8 : a.c.deleted = b.c.deleted) : a = b := by
  obtain ⟨⟨r1, w1, f1⟩, t1, ⟨i1, u1, s1, d1⟩⟩ := a
  obtain ⟨⟨r2, w2, f2⟩, t2, ⟨i2, u2, s2, d2⟩⟩ := b
  simp_all

theorem validRecs_cons_valid (r : RawRecord) (rest : List RawRecord)
    (h : (truthy r.video_id).isSome) : validRecs (r :: rest) = r :: validRecs rest := by
  simp [validRecs, List.filter_cons, h]

theorem validRecs_cons_invalid (r : RawRecord) (rest : List RawRecord)
    (h : truthy r.video_id = none) : validRecs (r :: rest) = validRecs rest := by
  simp [validRecs, List.filter_cons, h]

/-- A run in which every valid source id is already present in `table_ids`
performs only updates: the rows evolve by the per-record UPDATE maps, the key
set does not change, and the counters record one update per valid record and
one skip per invalid record. -/
theorem stagingLoop_updates :
    ∀ (raw : List RawRecord) (ls : LoopSt),
    (∀ r ∈ raw, ∀ vid, truthy r.video_id = some vid → vid ∈ ls.tableIds) →
    (∀ r ∈ raw, (truthy r.video_id).isSome → ∃ p, stagingParams r = .ok p) →
    ls.store.failAt = none →
    stagingLoop ls raw = .ok
      { store := { rows := ls.store.rows.map (applyAll (validRecs raw)),
                   writes := ls.store.writes + (validRecs raw).length,
                   failAt := none },
        tableIds := ls.tableIds,
        c := { inserted := ls.c.inserted,
               updated := ls.c.updated + (validRecs raw).length,
               skipped := ls.c.skipped + (invalidRecs raw).length,
               deleted := ls.c.deleted } } := by
  intro raw
  induction raw with
  | nil =>
    intro ls hin hok hf
    rw [stagingLoop_nil]
    refine congrArg Except.ok (loopSt_ext ?_ ?_ ?_ rfl rfl ?_ ?_ rfl)
    · show ls.store.rows = List.map (applyAll (validRecs [])) ls.store.rows
      exact ((List.map_congr_left
        (fun w _ => (rfl : applyAll (validRecs []) w = w))).trans (List.map_id _)).symm
    · simp [validRecs]
    · show ls.store.failAt = none
      exact hf
    · simp [validRecs]
    · simp [invalidRecs]
  | cons r rest ih =>
    intro ls hin hok hf
    rw [stagingLoop_cons]
    cases hv : truthy r.video_id with
    | none =>
      rw [stagingStep_skip hv]
      simp only [Except.bind]
      rw [ih { store := ls.store, tableIds := ls.tableIds,
               c := { inserted := ls.c.inserted, updated := ls.c.updated,
                      skipped := ls.c.skipped + 1, deleted := ls.c.deleted } }
             (fun q hq => hin q (List.mem_cons_of_mem _ hq))
             (fun q hq => hok q (List.mem_cons_of_mem _ hq)) hf]
      refine congrArg Except.ok (loopSt_ext ?_ ?_ rfl rfl rfl ?_ ?_ rfl) <;>
        simp [validRecs_cons_invalid r rest hv, invalidRecs, List.filter_cons, hv] <;> omega
    | some vid =>
      obtain ⟨p, hp⟩ := hok r (List.mem_cons_self _ _) (by simp [hv])
      have hm : vid ∈ ls.tableIds := hin r (List.mem_cons_self _ _) vid hv
      rw [stagingStep_update ls hv hm hp (by simp [hf])]
      simp only [Except.bind]
      rw [ih { store := { rows := List.map (applyUpdate p) ls.store.rows,
                          writes := ls.store.writes + 1, failAt := ls.store.failAt },
               tableIds := ls.tableIds,
               c := { inserted := ls.c.inserted, updated := ls.c.updated + 1,
                      skipped := ls.c.skipped, deleted := ls.c.deleted } }
             (fun q hq => hin q (List.mem_cons_of_mem _ hq))
             (fun q hq => hok q (List.mem_cons_of_mem _ hq)) (by simp [hf])]
      refine congrArg Except.ok (loopSt_ext ?_ ?_ ?_ rfl rfl ?_ ?_ rfl)
      · simp only [List.map_map]
        refine List.map_congr_left (fun w _ => ?_)
        rw [validRecs_cons_valid r rest (by simp [hv]), Function.comp_apply, applyAll_cons]
        simp [applyRec, hp]
      · simp [validRecs_cons_valid r rest (by simp [hv])]; omega
      · simp [hf]
      · simp [validRecs_cons_valid r rest (by simp [hv])]; omega
      · simp [invalidRecs, List.filter_cons, hv]

/-- Every row a successful upsert loop leaves behind is a fixed point of
re-applying the run's UPDATE sequence: pre-existing rows become the image of
the cumulative update map (idempotent by `applyAll_idem`), and each freshly
inserted row already carries the last matching record's field values. -/
theorem stagingLoop_fixpoint :
    ∀ (raw : List RawRecord) (ls ls' : LoopSt),
    stagingLoop ls raw = .ok ls' →
    (∀ w ∈ ls.store.rows, w.video_id ∈ ls.tableIds) →
    ∃ ex : List StRow,
      ls'.store.rows = ls.store.rows.map (applyAll (validRecs raw)) ++ ex ∧
      ∀ w ∈ ex, applyAll (validRecs raw) w = w ∧ w.video_id ∉ ls.tableIds := by
  intro raw
  induction raw with
  | nil =>
    intro ls ls' h hk
    rw [stagingLoop_nil] at h
    injection h with h
    subst h
    refine ⟨[], ?_, by simp⟩
    rw [List.append_nil]
    exact ((List.map_congr_left
      (fun w _ => (rfl : applyAll (validRecs []) w = w))).trans (List.map_id _)).symm
  | cons r rest ih =>
    intro ls ls' h hk
    rw [stagingLoop_cons] at h
    cases hs : stagingStep ls r with
    | error e => rw [hs] at h; cases h
    | ok ls1 =>
      rw [hs] at h
      simp only [Except.bind] at h
      rcases stagingStep_ok_inv hs with
        ⟨hv, rfl⟩ | ⟨vid, p, hv, hp, -, ⟨hm, rfl⟩ | ⟨hm, rfl⟩⟩
      · -- skipped record: rows, tableIds unchanged
        obtain ⟨ex, hrows, hex⟩ := ih _ ls' h hk
        rw [validRecs_cons_invalid r rest hv]
        exact ⟨ex, hrows, hex⟩
      · -- update
        have hpv : p.video_id = vid := params_vid hv hp
        have hk1 : ∀ w ∈ ls.store.rows.map (applyUpdate p), w.video_id ∈ ls.tableIds := by
          intro w hw
          obtain ⟨w0, hw0, rfl⟩ := List.mem_map.mp hw
          rw [applyUpdate_video_id]
          exact hk w0 hw0
        obtain ⟨ex, hrows, hex⟩ := ih _ ls' h hk1
        rw [validRecs_cons_valid r rest (by simp [hv])]
        refine ⟨ex, ?_, ?_⟩
        · rw [hrows]
          simp only [List.map_map]
          congr 1
          refine List.map_congr_left (fun w _ => ?_)
          rw [Function.comp_apply, applyAll_cons]
          simp [applyRec, hp]
        · intro w hw
          obtain ⟨hfix, hnot⟩ := hex w hw
          refine ⟨?_, hnot⟩
          rw [applyAll_cons]
          have : applyRec r w = w := by
            simp only [applyRec, hp, applyUpdate]
            rw [if_neg]
            rintro ⟨h1, -⟩
            exact hnot (by rw [h1, hpv]; exact hm)
          rw [this, hfix]
      · -- insert
        have hpv : p.video_id = vid := params_vid hv hp
        have hk1 : ∀ w ∈ ls.store.rows ++ [p], w.video_id ∈ ls.tableIds ++ [vid] := by
          intro w hw
          rcases List.mem_append.mp hw with hw | hw
          · exact List.mem_append_left _ (hk w hw)
          · rw [List.mem_singleton.mp hw, hpv]
            exact List.mem_append_right _ (List.mem_singleton.mpr rfl)
        obtain ⟨ex, hrows, hex⟩ := ih _ ls' h hk1
        rw [validRecs_cons_valid r rest (by simp [hv])]
        refine ⟨applyAll (validRecs rest) p :: ex, ?_, ?_⟩
        · rw [hrows, List.map_append]
          simp only [List.map_singleton]
          rw [List.append_assoc, List.singleton_append]
          congr 1
          refine List.map_congr_left (fun w hw => ?_)
          rw [applyAll_cons]
          have : applyRec r w = w := by
            simp only [applyRec, hp, applyUpdate]
            rw [if_neg]
            rintro ⟨h1, -⟩
            exact hm (by rw [← hpv, ← h1]; exact hk w hw)
          rw [this]
        · intro w hw
          rcases List.mem_cons.mp hw with rfl | hw
          · constructor
            · rw [applyAll_cons]
              have : applyRec r (applyAll (validRecs rest) p) = p := by
                simp only [applyRec, hp, applyUpdate]
                rw [if_pos ⟨by rw [applyAll_video_id], by rw [applyAll_upload_date]⟩]
                exact setFields_eq_params (by rw [applyAll_video_id]) (by rw [applyAll_upload_date])
              rw [this]
            · rw [applyAll_video_id, hpv]
              exact hm
          · obtain ⟨hfix, hnot⟩ := hex w hw
            have hnot' : w.video_id ∉ ls.tableIds ∧ w.video_id ≠ vid := by
              constructor
              · intro hmem; exact hnot (List.mem_append_left _ hmem)
              · intro heq; exact hnot (List.mem_append_right _ (List.mem_singleton.mpr heq))
            refine ⟨?_, hnot'.1⟩
            rw [applyAll_cons]
            have : applyRec r w = w := by
              simp only [applyRec, hp, applyUpdate]
              rw [if_neg]
              rintro ⟨h1, -⟩
              exact hnot'.2 (h1.trans hpv)
            rw [this, hfix]

theorem mem_validIds {raw : List RawRecord} {r : RawRecord} {vid : String}
    (hr : r ∈ raw) (hv : truthy r.video_id = some vid) : vid ∈ validIds raw := by
  simp only [validIds, List.mem_filterMap]
  exact ⟨r, hr, hv⟩

/-- After a successful staging run, every stored row is a fixed point of the
run's cumulative UPDATE map. -/
theorem staging_run_fixpoint {db : List StRow} {raw : List RawRecord}
    {db1 : List StRow} {c1 : Counters}
    (h : staging_table none db raw = (db1, .ok c1)) :
    ∀ w ∈ db1, applyAll (validRecs raw) w = w := by
  unfold staging_table at h
  cases hb : stagingBody none db raw with
  | error e => rw [hb] at h; injection h with h1 h2; cases h2
  | ok v =>
    obtain ⟨st, c0⟩ := v
    rw [hb] at h
    injection h with h1 h2
    subst h1
    obtain ⟨ls, hl, hpost⟩ := stagingBody_ok_inv hb
    have hk : ∀ w ∈ db, w.video_id ∈ (keys db).dedup := fun w hw => by
      rw [mem_dedup_keys]
      exact List.mem_map_of_mem _ hw
    obtain ⟨ex, hrows, hex⟩ := stagingLoop_fixpoint raw _ ls hl hk
    have hfixls : ∀ w ∈ ls.store.rows, applyAll (validRecs raw) w = w := by
      intro w hw
      rw [hrows] at hw
      rcases List.mem_append.mp hw with hw | hw
      · obtain ⟨w0, -, rfl⟩ := List.mem_map.mp hw
        exact applyAll_idem _ _
      · exact (hex w hw).1
    rcases hpost with ⟨-, rfl, -⟩ | ⟨-, -, rfl, -⟩
    · exact hfixls
    · intro w hw
      exact hfixls w (List.mem_of_mem_filter hw)

/-- After a successful staging run, every valid source record has a
buildable parameter set. -/
theorem staging_run_required {db : List StRow} {raw : List RawRecord}
    {db1 : List StRow} {c1 : Counters}
    (h : staging_table none db raw = (db1, .ok c1)) :
    ∀ r ∈ raw, (truthy r.video_id).isSome → ∃ p, stagingParams r = .ok p := by
  unfold staging_table at h
  cases hb : stagingBody none db raw with
  | error e => rw [hb] at h; injection h with h1 h2; cases h2
  | ok v =>
    obtain ⟨st, c0⟩ := v
    obtain ⟨ls, hl, -⟩ := stagingBody_ok_inv hb
    exact (stagingLoop_shape raw _ ls hl).2.2.2.2.1

/-- Re-running the staging sync against the table a first successful run
produced performs only updates — one per valid source record — no inserts, no
deletes, and leaves the table unchanged. -/
theorem staging_idempotent {db : List StRow} {raw : List RawRecord}
    {db1 : List StRow} {c1 : Counters}
    (h : staging_table none db raw = (db1, .ok c1)) :
    staging_table none db1 raw =
      (db1, .ok { inserted := 0, updated := (validRecs raw).length,
                  skipped := (invalidRecs raw).length, deleted := 0 }) := by
  have hcov := staging_coverage h
  have hfix := staging_run_fixpoint h
  have hreq := staging_run_required h
  have hin : ∀ r ∈ raw, ∀ vid, truthy r.video_id = some vid → vid ∈ (keys db1).dedup := by
    intro r hr vid hv
    rw [mem_dedup_keys]
    exact (hcov vid).mpr (mem_validIds hr hv)
  have hloop := stagingLoop_updates raw
    { store := { rows := db1, writes := 0, failAt := none },
      tableIds := (keys db1).dedup, c := {} } hin hreq rfl
  have hD : ((keys db1).dedup.filter (fun x => decide (x ∉ validIds raw))) = [] := by
    refine List.filter_eq_nil_iff.mpr (fun x hx => ?_)
    rw [mem_dedup_keys] at hx
    simp [(hcov x).mp hx]
  have hmap : db1.map (applyAll (validRecs raw)) = db1 :=
    (List.map_congr_left (fun w hw => hfix w hw)).trans (List.map_id _)
  have hbody : stagingBody none db1 raw =
      .ok ({ rows := db1, writes := (validRecs raw).length, failAt := none },
           { inserted := 0, updated := (validRecs raw).length,
             skipped := (invalidRecs raw).length, deleted := 0 }) := by
    simp only [stagingBody, Bind.bind]
    rw [hloop]
    simp only [Except.bind]
    rw [if_pos hD]
    simp [hmap]
  unfold staging_table
  rw [hbody]

/-! ### Core-layer loop lemmas -/

theorem recValidIds_fetch (srows : List StRow) :
    recValidIds (srows.map coreFetch) = coValidIds srows := by
  simp only [recValidIds, coValidIds, List.filterMap_map]
  rfl

theorem mem_addSet {l : List String} {v x : String} :
    x ∈ addSet l v ↔ x ∈ l ∨ x = v := by
  unfold addSet
  split
  · constructor
    · exact Or.inl
    · rintro (h | rfl)
      · exact h
      · assumption
  · simp [List.mem_append]

theorem transform_Video_ID {row trow : CoreRec}
    (h : transform_duration row = .ok trow) : trow.Video_ID = row.Video_ID := by
  unfold transform_duration at h
  split at h
  · injection h with h; rw [← h]
  · split at h
    · injection h with h; rw [← h]
    · split at h
      · cases h
      · injection h with h; rw [← h]
  · split at h
    · injection h with h; rw [← h]
    · cases h

theorem coreParams_video_id {row : CoreRec} {p : CoRow}
    (h : coreParams row = .ok p) : row.Video_ID = some p.video_id := by
  cases hv : row.Video_ID with
  | none => rw [coreParams, hv] at h; simp [req, Bind.bind, Except.bind] at h
  | some vid =>
    rw [coreParams, hv] at h
    cases ht : row.Video_Title with
    | none => rw [ht] at h; simp [req, Bind.bind, Except.bind] at h
    | some t =>
      cases hu : row.Upload_Date with
      | none => rw [ht, hu] at h; simp [req, Bind.bind, Except.bind] at h
      | some u =>
        cases hd : row.Duration with
        | none => rw [ht, hu, hd] at h; simp [req, Bind.bind, Except.bind] at h
        | some d =>
          cases hy : row.Video_Type with
          | none => rw [ht, hu, hd, hy] at h; simp [req, Bind.bind, Except.bind] at h
          | some ty =>
            rw [ht, hu, hd, hy] at h
            simp only [req, Bind.bind, Except.bind, Except.ok.injEq] at h
            rw [← h]

theorem coreLoop_nil (ls : CoLoopSt) : coreLoop ls [] = .ok ls := rfl

theorem coreLoop_cons (ls : CoLoopSt) (r : CoreRec) (rest : List CoreRec) :
    coreLoop ls (r :: rest) = (coreStep ls r).bind (fun x => coreLoop x rest) := by
  cases h : coreStep ls r <;> simp [coreLoop, Bind.bind, h, Except.bind]

/-- Inversion of one successful core upsert-loop iteration. -/
theorem coreStep_ok_inv {ls ls1 : CoLoopSt} {r : CoreRec}
    (h : coreStep ls r = .ok ls1) :
    (truthy r.Video_ID = none ∧
       ls1 = { ls with c := { ls.c with skipped := ls.c.skipped + 1 } }) ∨
    (∃ vid trow p, truthy r.Video_ID = some vid ∧
       transform_duration r = .ok trow ∧ coreParams trow = .ok p ∧
       ((vid ∈ ls.tableIds ∧ ls1 =
          { store := { rows := ls.store.rows.map (coApplyUpdate p),
                       writes := ls.store.writes + 1, failAt := ls.store.failAt },
            tableIds := ls.tableIds,
            stagingIds := addSet ls.stagingIds vid,
            c := { ls.c with updated := ls.c.updated + 1 } }) ∨
        (vid ∉ ls.tableIds ∧ ls1 =
          { store := { rows := ls.store.rows ++ [p],
                       writes := ls.store.writes + 1, failAt := ls.store.failAt },
            tableIds := ls.tableIds ++ [vid],
            stagingIds := addSet ls.stagingIds vid,
            c := { ls.c with inserted := ls.c.inserted + 1 } }))) := by
  unfold coreStep at h
  cases hv : truthy r.Video_ID with
  | none =>
    rw [hv] at h
    simp only at h
    left
    exact ⟨rfl, by injection h with h; exact h.symm⟩
  | some vid =>
    rw [hv] at h
    simp only [Bind.bind] at h
    right
    cases htr : transform_duration r with
    | error e => rw [htr] at h; simp only [Except.bind] at h; cases h
    | ok trow =>
      rw [htr] at h
      simp only [Except.bind] at h
      by_cases hm : vid ∈ ls.tableIds
      · rw [if_pos hm] at h
        simp only [co_update_rows, Bind.bind] at h
        cases hp : coreParams trow with
        | error e => rw [hp] at h; simp only [Except.bind] at h; cases h
        | ok p =>
          rw [hp] at h
          simp only [Except.bind] at h
          unfold execWrite at h
          by_cases hf : ls.store.failAt = some ls.store.writes
          · rw [if_pos hf] at h
            simp only [Except.bind] at h
            cases h
          · rw [if_neg hf] at h
            simp only [Except.bind] at h
            refine ⟨vid, trow, p, rfl, rfl, hp, Or.inl ⟨hm, ?_⟩⟩
            injection h with h
            exact h.symm
      · rw [if_neg hm] at h
        simp only [co_insert_rows, Bind.bind] at h
        cases hp : coreParams trow with
        | error e => rw [hp] at h; simp only [Except.bind] at h; cases h
        | ok p =>
          rw [hp] at h
          simp only [Except.bind] at h
          unfold execWrite at h
          by_cases hf : ls.store.failAt = some ls.store.writes
          · rw [if_pos hf] at h
            simp only [Except.bind] at h
            cases h
          · rw [if_neg hf] at h
            simp only [Except.bind] at h
            refine ⟨vid, trow, p, rfl, rfl, hp, Or.inr ⟨hm, ?_⟩⟩
            injection h with h
            exact h.symm

theorem coKeys_append (a b : List CoRow) : coKeys (a ++ b) = coKeys a ++ coKeys b := by
  simp [coKeys]

theorem coKeys_map_coApplyUpdate (p : CoRow) (rows : List CoRow) :
    coKeys (rows.map (coApplyUpdate p)) = coKeys rows := by
  simp only [coKeys, List.map_map]
  refine List.map_congr_left (fun w _ => ?_)
  simp only [Function.comp_apply, coApplyUpdate]
  split <;> simp [coSetFields]

theorem recValidIds_cons (r : CoreRec) (rest : List CoreRec) :
    recValidIds (r :: rest) =
      match truthy r.Video_ID with
      | none => recValidIds rest
      | some v => v :: recValidIds rest := by
  cases h : truthy r.Video_ID <;> simp [recValidIds, List.filterMap_cons, h]

/-- Structural facts about a successful core upsert loop: no deletion counted,
each fetched row feeds exactly one of the three upsert counters, the key
column and `table_ids` grow by the same freshly inserted ids (all valid), every
valid id lands in `table_ids`, and `staging_ids` accumulates exactly the valid
ids of the processed rows. -/
theorem coreLoop_shape :
    ∀ (rows : List CoreRec) (ls ls' : CoLoopSt), coreLoop ls rows = .ok ls' →
    ls'.c.deleted = ls.c.deleted ∧
    ls'.c.inserted + ls'.c.updated + ls'.c.skipped
      = ls.c.inserted + ls.c.updated + ls.c.skipped + rows.length ∧
    (∀ x, x ∈ ls'.stagingIds ↔ (x ∈ ls.stagingIds ∨ x ∈ recValidIds rows)) ∧
    ∃ extra : List String,
      ls'.tableIds = ls.tableIds ++ extra ∧
      coKeys ls'.store.rows = coKeys ls.store.rows ++ extra ∧
      (∀ x ∈ extra, x ∈ recValidIds rows) ∧
      (∀ x ∈ recValidIds rows, x ∈ ls'.tableIds) := by
  intro rows
  induction rows with
  | nil =>
    intro ls ls' h
    rw [coreLoop_nil] at h
    injection h with h
    subst h
    exact ⟨rfl, rfl, by simp [recValidIds], [], by simp, by simp, by simp,
           by simp [recValidIds]⟩
  | cons r rest ih =>
    intro ls ls' h
    rw [coreLoop_cons] at h
    cases hs : coreStep ls r with
    | error e => rw [hs] at h; cases h
    | ok ls1 =>
      rw [hs] at h
      simp only [Except.bind] at h
      obtain ⟨hdel, hsum, hseen, extra, hids, hkeys, hev, hvi⟩ := ih ls1 ls' h
      rcases coreStep_ok_inv hs with
        ⟨hv, rfl⟩ | ⟨vid, trow, p, hv, htr, hp, ⟨hm, rfl⟩ | ⟨hm, rfl⟩⟩
      · -- skipped row
        refine ⟨hdel, ?_, ?_, extra, hids, hkeys, ?_, ?_⟩
        · simp only [hsum]; simp; omega
        · intro x
          rw [hseen, recValidIds_cons, hv]
        · intro x hx; have := hev x hx; rw [recValidIds_cons, hv]; exact this
        · intro x hx; rw [recValidIds_cons, hv] at hx; exact hvi x hx
      · -- updated row
        have hpv : p.video_id = vid := by
          have h1 := coreParams_video_id hp
          rw [transform_Video_ID htr, (truthy_eq_some.mp hv).1] at h1
          injection h1 with h1
          exact h1.symm
        refine ⟨hdel, ?_, ?_, extra, hids, ?_, ?_, ?_⟩
        · simp only [hsum]; simp; omega
        · intro x
          rw [hseen, recValidIds_cons, hv]
          simp only [mem_addSet, List.mem_cons]
          tauto
        · rw [hkeys, coKeys_map_coApplyUpdate]
        · intro x hx; have := hev x hx; rw [recValidIds_cons, hv]
          exact List.mem_cons_of_mem _ this
        · intro x hx; rw [recValidIds_cons, hv] at hx
          rcases List.mem_cons.mp hx with rfl | hx
          · rw [hids]; exact List.mem_append_left _ hm
          · exact hvi x hx
      · -- inserted row
        have hpv : p.video_id = vid := by
          have h1 := coreParams_video_id hp
          rw [transform_Video_ID htr, (truthy_eq_some.mp hv).1] at h1
          injection h1 with h1
          exact h1.symm
        refine ⟨hdel, ?_, ?_, vid :: extra, ?_, ?_, ?_, ?_⟩
        · simp only [hsum]; simp; omega
        · intro x
          rw [hseen, recValidIds_cons, hv]
          simp only [mem_addSet, List.mem_cons]
          tauto
        · rw [hids]; simp
        · rw [hkeys, coKeys_append]
          simp [coKeys, hpv]
        · intro x hx
          rcases List.mem_cons.mp hx with rfl | hx
          · rw [recValidIds_cons, hv]; exact List.mem_cons_self _ _
          · rw [recValidIds_cons, hv]; exact List.mem_cons_of_mem _ (hev x hx)
        · intro x hx; rw [recValidIds_cons, hv] at hx
          rcases List.mem_cons.mp hx with rfl | hx
          · rw [hids]
            exact List.mem_append_left _ (List.mem_append_right _ (List.mem_singleton.mpr rfl))
          · exact hvi x hx

theorem coKeys_filter_del (rows : List CoRow) (ids : List String) (x : String) :
    x ∈ coKeys (rows.filter (fun w => decide (w.video_id ∉ ids))) ↔
      x ∈ coKeys rows ∧ x ∉ ids := by
  simp only [coKeys, List.mem_map, List.mem_filter, decide_eq_true_eq]
  constructor
  · rintro ⟨a, ⟨ha, hna⟩, rfl⟩; exact ⟨⟨a, ha, rfl⟩, hna⟩
  · rintro ⟨⟨a, ha, rfl⟩, hx⟩; exact ⟨a, ⟨ha, hx⟩, rfl⟩

theorem mem_dedup_coKeys {db : List CoRow} {x : String} :
    x ∈ (coKeys db).dedup ↔ x ∈ coKeys db := List.mem_dedup

/-- Inversion of a successful `core_table` transaction body. -/
theorem coreBody_ok_inv {failAt : Option Nat} {srows : List StRow}
    {db : List CoRow} {st : Store CoRow} {c : Counters}
    (h : coreBody failAt srows db = .ok (st, c)) :
    ∃ ls, coreLoop
        { store := { rows := db, writes := 0, failAt := failAt },
          tableIds := (coKeys db).dedup, stagingIds := [], c := {} }
        (srows.map coreFetch) = .ok ls ∧
      ((ls.tableIds.filter (fun x => decide (x ∉ ls.stagingIds)) = [] ∧
        st = ls.store ∧ c = ls.c) ∨
       (ls.tableIds.filter (fun x => decide (x ∉ ls.stagingIds)) ≠ [] ∧
        ¬ ls.store.failAt = some ls.store.writes ∧
        st = { rows := ls.store.rows.filter (fun w =>
                 decide (w.video_id ∉ ls.tableIds.filter (fun x => decide (x ∉ ls.stagingIds)))),
               writes := ls.store.writes + 1, failAt := ls.store.failAt } ∧
        c = { ls.c with deleted :=
                (ls.tableIds.filter (fun x => decide (x ∉ ls.stagingIds))).length })) := by
  simp only [coreBody, Bind.bind] at h
  cases hl : coreLoop
      { store := { rows := db, writes := 0, failAt := failAt },
        tableIds := (coKeys db).dedup, stagingIds := [], c := {} }
      (srows.map coreFetch) with
  | error e => rw [hl] at h; cases h
  | ok ls =>
    rw [hl] at h
    simp only [Except.bind] at h
    refine ⟨ls, rfl, ?_⟩
    by_cases hD : ls.tableIds.filter (fun x => decide (x ∉ ls.stagingIds)) = []
    · rw [if_pos hD] at h
      injection h with h
      exact Or.inl ⟨hD, congrArg Prod.fst h.symm, congrArg Prod.snd h.symm⟩
    · rw [if_neg hD] at h
      simp only [delete_rows, execWrite] at h
      by_cases hf : ls.store.failAt = some ls.store.writes
      · rw [if_pos hf] at h; cases h
      · rw [if_neg hf] at h
        simp only [Except.bind] at h
        injection h with h
        exact Or.inr ⟨hD, hf, congrArg Prod.fst h.symm, congrArg Prod.snd h.symm⟩

/-- Key-set characterization of a successful core run: the final core key
column holds exactly the truthy staging ids. -/
theorem core_coverage {srows : List StRow} {db : List CoRow}
    {rows' : List CoRow} {c : Counters}
    (h : core_table none srows db = (rows', .ok c)) :
    ∀ x, x ∈ coKeys rows' ↔ x ∈ coValidIds srows := by
  unfold core_table at h
  cases hb : coreBody none srows db with
  | error e => rw [hb] at h; injection h with h1 h2; cases h2
  | ok v =>
    obtain ⟨st, c0⟩ := v
    rw [hb] at h
    injection h with h1 h2
    subst h1
    injection h2 with h2
    subst h2
    obtain ⟨ls, hl, hpost⟩ := coreBody_ok_inv hb
    obtain ⟨-, -, hseen, extra, hids, hkeys, hev, hvi⟩ :=
      coreLoop_shape (srows.map coreFetch) _ ls hl
    simp only [recValidIds_fetch] at hev hvi hseen
    intro x
    have hmemTable : ∀ y, y ∈ ls.tableIds ↔ (y ∈ coKeys db ∨ y ∈ extra) := by
      intro y
      rw [hids]
      simp [mem_dedup_coKeys]
    have hseen' : ∀ y, y ∈ ls.stagingIds ↔ y ∈ coValidIds srows := by
      intro y
      rw [hseen]
      simp
    have hmemDel : ∀ y, y ∈ ls.tableIds.filter (fun z => decide (z ∉ ls.stagingIds)) ↔
        (y ∈ ls.tableIds ∧ y ∉ coValidIds srows) := by
      intro y
      simp only [List.mem_filter, decide_eq_true_eq]
      rw [hseen']
    rcases hpost with ⟨hD, rfl, rfl⟩ | ⟨hD, -, rfl, rfl⟩
    · rw [hkeys]
      constructor
      · intro hx
        rcases List.mem_append.mp hx with hx | hx
        · by_contra hnv
          have : x ∈ ls.tableIds.filter (fun z => decide (z ∉ ls.stagingIds)) :=
            (hmemDel x).mpr ⟨(hmemTable x).mpr (Or.inl hx), hnv⟩
          rw [hD] at this
          cases this
        · exact hev x hx
      · intro hx
        have := hvi x hx
        rcases (hmemTable x).mp this with hx' | hx'
        · exact List.mem_append_left _ hx'
        · exact List.mem_append_right _ hx'
    · rw [coKeys_filter_del]
      constructor
      · rintro ⟨hx, hnd⟩
        rw [hkeys] at hx
        rcases List.mem_append.mp hx with hx | hx
        · by_contra hnv
          exact hnd ((hmemDel x).mpr ⟨(hmemTable x).mpr (Or.inl hx), hnv⟩)
        · exact hev x hx
      · intro hx
        refine ⟨?_, ?_⟩
        · rw [hkeys]
          rcases (hmemTable x).mp (hvi x hx) with hx' | hx'
          · exact List.mem_append_left _ hx'
          · exact List.mem_append_right _ hx'
        · intro hmem
          exact ((hmemDel x).mp hmem).2 hx

/-- Counter accounting of a successful core run. -/
theorem core_counters {srows : List StRow} {db : List CoRow}
    {rows' : List CoRow} {c : Counters}
    (h : core_table none srows db = (rows', .ok c)) :
    c.inserted + c.updated + c.skipped = srows.length ∧
    c.deleted = ((coKeys db).dedup.filter (fun x => decide (x ∉ coValidIds srows))).length := by
  unfold core_table at h
  cases hb : coreBody none srows db with
  | error e => rw [hb] at h; injection h with h1 h2; cases h2
  | ok v =>
    obtain ⟨st, c0⟩ := v
    rw [hb] at h
    injection h with h1 h2
    injection h2 with h2
    subst h2
    obtain ⟨ls, hl, hpost⟩ := coreBody_ok_inv hb
    obtain ⟨hdel, hsum, hseen, extra, hids, -, hev, -⟩ :=
      coreLoop_shape (srows.map coreFetch) _ ls hl
    simp only [recValidIds_fetch] at hev hseen
    simp only at hdel hsum
    rw [List.length_map] at hsum
    have hseen' : ∀ y, y ∈ ls.stagingIds ↔ y ∈ coValidIds srows := by
      intro y
      rw [hseen]
      simp
    have hfcongr : ls.tableIds.filter (fun x => decide (x ∉ ls.stagingIds)) =
        ls.tableIds.filter (fun x => decide (x ∉ coValidIds srows)) := by
      refine List.filter_congr (fun x _ => ?_)
      simp only [decide_eq_decide]
      rw [hseen']
    have hfsplit : ls.tableIds.filter (fun x => decide (x ∉ coValidIds srows)) =
        (coKeys db).dedup.filter (fun x => decide (x ∉ coValidIds srows)) := by
      rw [hids, List.filter_append]
      have : extra.filter (fun x => decide (x ∉ coValidIds srows)) = [] :=
        List.filter_eq_nil_iff.mpr (fun x hx => by simp [hev x hx])
      rw [this, List.append_nil]
    rcases hpost with ⟨hD, -, rfl⟩ | ⟨hD, -, -, rfl⟩
    · refine ⟨by omega, ?_⟩
      rw [hdel, ← hfsplit, ← hfcongr, hD]
      rfl
    · refine ⟨by simp; omega, ?_⟩
      show (ls.tableIds.filter (fun x => decide (x ∉ ls.stagingIds))).length = _
      rw [hfcongr, hfsplit]

theorem stagingLoop_append (xs ys : List RawRecord) :
    ∀ ls, stagingLoop ls (xs ++ ys) =
      (stagingLoop ls xs).bind (fun ls1 => stagingLoop ls1 ys) := by
  induction xs with
  | nil => intro ls; rw [List.nil_append, stagingLoop_nil]; rfl
  | cons r rest ih =>
    intro ls
    rw [List.cons_append, stagingLoop_cons, stagingLoop_cons]
    cases hs : stagingStep ls r with
    | error e => rfl
    | ok ls1 => simp only [Except.bind]; exact ih ls1

/-- With no injected store failure, a loop over records whose valid entries all
have buildable parameter sets cannot fail. -/
theorem stagingLoop_progress :
    ∀ (raw : List RawRecord) (ls : LoopSt), ls.store.failAt = none →
    (∀ r ∈ raw, (truthy r.video_id).isSome → ∃ p, stagingParams r = .ok p) →
    ∃ ls', stagingLoop ls raw = .ok ls' ∧ ls'.store.failAt = none := by
  intro raw
  induction raw with
  | nil => intro ls hf _; exact ⟨ls, stagingLoop_nil ls, hf⟩
  | cons r rest ih =>
    intro ls hf hok
    rw [stagingLoop_cons]
    cases hv : truthy r.video_id with
    | none =>
      rw [stagingStep_skip hv]
      simp only [Except.bind]
      exact ih _ hf (fun q hq => hok q (List.mem_cons_of_mem _ hq))
    | some vid =>
      obtain ⟨p, hp⟩ := hok r (List.mem_cons_self _ _) (by simp [hv])
      by_cases hm : vid ∈ ls.tableIds
      · rw [stagingStep_update ls hv hm hp (by simp [hf])]
        simp only [Except.bind]
        exact ih _ (by simp [hf]) (fun q hq => hok q (List.mem_cons_of_mem _ hq))
      · rw [stagingStep_insert ls hv hm hp (by simp [hf])]
        simp only [Except.bind]
        exact ih _ (by simp [hf]) (fun q hq => hok q (List.mem_cons_of_mem _ hq))

/-- A reached record with a truthy id whose required-field mapping raises makes
the whole staging run abort and roll back: the committed table is unchanged and
no record of the batch (before or after the bad one) is applied. -/
theorem staging_aborts_on_bad_record (db : List StRow)
    (pre post : List RawRecord) (r : RawRecord)
    (hpre : ∀ q ∈ pre, (truthy q.video_id).isSome → ∃ p, stagingParams q = .ok p)
    (hv : (truthy r.video_id).isSome)
    (hbad : stagingParams r = .error .keyMissing) :
    staging_table none db (pre ++ r :: post) = (db, .error .keyMissing) := by
  obtain ⟨ls1, hls1, hf1⟩ := stagingLoop_progress pre
    { store := { rows := db, writes := 0, failAt := none },
      tableIds := (keys db).dedup, c := {} } rfl hpre
  obtain ⟨vid, hvid⟩ := Option.isSome_iff_exists.mp hv
  have hstep : stagingStep ls1 r = .error .keyMissing :=
    stagingStep_err_params hvid hbad
  have hloop : stagingLoop
      { store := { rows := db, writes := 0, failAt := none },
        tableIds := (keys db).dedup, c := {} } (pre ++ r :: post) = .error .keyMissing := by
    rw [stagingLoop_append, hls1]
    simp only [Except.bind]
    rw [stagingLoop_cons, hstep]
    rfl
  unfold staging_table
  simp only [stagingBody, Bind.bind]
  rw [hloop]
  rfl

/-- A fresh id occurring twice in the source yields one insert (first
occurrence) then one update (second occurrence); when the two occurrences
share the upload timestamp, the surviving row for that id is exactly the
second occurrence's parameter set (rows of other ids follow the usual
full-sync delete). -/
theorem staging_duplicate_tiebreak (db : List StRow) (r1 r2 : RawRecord)
    (vid : String) (p1 p2 : StRow)
    (hv1 : truthy r1.video_id = some vid) (hv2 : truthy r2.video_id = some vid)
    (hp1 : stagingParams r1 = .ok p1) (hp2 : stagingParams r2 = .ok p2)
    (hupl : p2.upload_date = p1.upload_date)
    (hfresh : vid ∉ keys db) :
    staging_table none db [r1, r2] =
      ([p2], .ok { inserted := 1, updated := 1, skipped := 0,
                   deleted := (keys db).dedup.length }) := by
  have hpv1 : p1.video_id = vid := params_vid hv1 hp1
  have hpv2 : p2.video_id = vid := params_vid hv2 hp2
  have hm1 : vid ∉ ((keys db).dedup : List String) := by
    rw [mem_dedup_keys]; exact hfresh
  -- the two loop iterations
  have hstep1 := stagingStep_insert
    { store := { rows := db, writes := 0, failAt := none },
      tableIds := (keys db).dedup, c := {} } hv1 hm1 hp1 (by simp)
  have hstep2 := stagingStep_update
    { store := { rows := db ++ [p1], writes := 1, failAt := none },
      tableIds := (keys db).dedup ++ [vid],
      c := { inserted := 1, updated := 0, skipped := 0, deleted := 0 } }
    hv2 (List.mem_append_right _ (List.mem_singleton.mpr rfl)) hp2 (by simp)
  have hrows : (db ++ [p1]).map (applyUpdate p2) = db ++ [p2] := by
    rw [List.map_append]
    congr 1
    · refine (List.map_congr_left (fun w hw => ?_)).trans (List.map_id _)
      show applyUpdate p2 w = id w
      rw [applyUpdate, if_neg ?_, id]
      rintro ⟨h1, -⟩
      exact hfresh (by rw [← hpv2, ← h1]; exact List.mem_map_of_mem _ hw)
    · simp only [List.map_singleton, List.cons.injEq, and_true]
      rw [applyUpdate, if_pos ⟨by rw [hpv1, hpv2], hupl.symm⟩]
      exact setFields_eq_params (by rw [hpv1, hpv2]) hupl.symm
  have hvalid : validIds [r1, r2] = [vid, vid] := by
    simp [validIds, List.filterMap_cons, hv1, hv2]
  have hD : (((keys db).dedup ++ [vid]).filter
      (fun x => decide (x ∉ validIds [r1, r2]))) = (keys db).dedup := by
    rw [hvalid, List.filter_append]
    have h1 : ((keys db).dedup.filter (fun x => decide (x ∉ ([vid, vid] : List String))))
        = (keys db).dedup := by
      refine List.filter_eq_self.mpr (fun x hx => ?_)
      have : x ≠ vid := fun heq => hfresh (heq ▸ mem_dedup_keys.mp hx)
      simp [this]
    have h2 : (([vid] : List String).filter (fun x => decide (x ∉ ([vid, vid] : List String))))
        = [] := by simp
    rw [h1, h2, List.append_nil]
  unfold staging_table
  simp only [stagingBody, Bind.bind]
  rw [stagingLoop_cons, hstep1]
  simp only [Except.bind]
  rw [stagingLoop_cons, hstep2]
  simp only [Except.bind, stagingLoop_nil, Except.bind]
  simp only [hD]
  by_cases h0 : ((keys db).dedup : List String) = []
  · rw [if_pos h0]
    have hdb : db = [] := by
      have := (List.dedup_eq_nil _).mp h0
      cases db with
      | nil => rfl
      | cons a l => simp [keys] at this
    subst hdb
    simp only [hrows]
    simp [h0]
  · rw [if_neg h0]
    have hdel : (db ++ [p2]).filter
        (fun w => decide (w.video_id ∉ (keys db).dedup)) = [p2] := by
      rw [List.filter_append]
      have h1 : db.filter (fun w => decide (w.video_id ∉ (keys db).dedup)) = [] :=
        List.filter_eq_nil_iff.mpr (fun w hw => by
          simp [mem_dedup_keys, keys]
          exact ⟨w, hw, rfl⟩)
      have h2 : ([p2] : List StRow).filter
          (fun w => decide (w.video_id ∉ (keys db).dedup)) = [p2] := by
        refine List.filter_eq_self.mpr (fun w hw => ?_)
        rw [List.mem_singleton.mp hw]
        simp [hpv2, hm1]
      rw [h1, h2, List.nil_append]
    simp only [delete_rows, execWrite, hrows]
    rw [if_neg (by simp)]
    simp only [Except.bind]
    rw [hdel]

/-! ## Claim theorems -/

/-- **C1** (full coverage): after a successful reconcile run — staging or
core — the target table's key set equals exactly the set of identity keys of
source records whose identity key is present and truthy: every valid source id
is in the target and no other id remains. -/
theorem claim_C1_full_coverage :
    (∀ (db : List StRow) (raw : List RawRecord) (rows' : List StRow) (c : Counters),
       staging_table none db raw = (rows', .ok c) →
       ∀ x, x ∈ keys rows' ↔ x ∈ validIds raw) ∧
    (∀ (srows : List StRow) (db : List CoRow) (rows' : List CoRow) (c : Counters),
       core_table none srows db = (rows', .ok c) →
       ∀ x, x ∈ coKeys rows' ↔ x ∈ coValidIds srows) :=
  ⟨fun _ _ _ _ h => staging_coverage h, fun _ _ _ _ h => core_coverage h⟩

/-- Witness for C1: concrete staging and core runs, checked at the id `aaa`. -/
theorem claim_C1_full_coverage_witness :
    (("aaa" ∈ keys [rowA]) ↔ "aaa" ∈ validIds [rayA]) ∧
    (("aaa" ∈ coKeys [coRowA]) ↔ "aaa" ∈ coValidIds [rowA]) :=
  ⟨claim_C1_full_coverage.1 [] [rayA] [rowA]
      { inserted := 1, updated := 0, skipped := 0, deleted := 0 } (by decide) "aaa",
   claim_C1_full_coverage.2 [rowA] [] [coRowA]
      { inserted := 1, updated := 0, skipped := 0, deleted := 0 } (by decide) "aaa"⟩

/-- **C2** (atomicity): if a run of the staging reconcile succeeds with a
total of `st.writes` write statements, then the same run with a store-level
failure injected on write `n < st.writes` fails with the store error and
leaves the committed table at exactly its pre-run rows. -/
theorem claim_C2_atomicity (db : List StRow) (raw : List RawRecord) (n : Nat)
    {st : Store StRow} {c : Counters}
    (hok : stagingBody none db raw = .ok (st, c)) (hn : n < st.writes) :
    staging_table (some n) db raw = (db, .error .store) := by
  unfold staging_table
  rw [stagingBody_inject hok hn]

/-- Witness for C2: a two-insert run failing on its second write rolls back. -/
theorem claim_C2_atomicity_witness :
    staging_table (some 1) [] [rayA, rayB] = ([], .error .store) :=
  claim_C2_atomicity [] [rayA, rayB] 1
    (show stagingBody none [] [rayA, rayB] =
        .ok ({ rows := [rowA, rowB], writes := 2, failAt := none },
             { inserted := 2, updated := 0, skipped := 0, deleted := 0 })
      by decide)
    (by decide)

/-- **C3** (counterexample): the claim asserts that when a fresh id occurs
twice in the source the final row carries the *second* occurrence's field
values. Because the UPDATE is keyed by `(Video_ID, Upload_Date)`, a second
occurrence with a different upload timestamp matches zero rows: here the run
issues one insert and one update (counters 1/1) yet the surviving row keeps
the first occurrence's title/duration, not the second's. -/
theorem claim_C3_counterexample :
    staging_table none [] [dupFirst, dupSecond] =
      ([dupP1], .ok { inserted := 1, updated := 1, skipped := 0, deleted := 0 }) ∧
    dupP1.video_title ≠ "second title" := by decide

/-- **C3** (amended): a fresh id occurring twice yields exactly one insert
(first occurrence) and one update (second occurrence); *when the second
occurrence carries the same upload timestamp as the first*, the surviving row
for that id is exactly the second occurrence's parameter set (all other
pre-existing rows fall to the full-sync delete). -/
theorem claim_C3_tiebreak_amended (db : List StRow) (r1 r2 : RawRecord)
    (vid : String) (p1 p2 : StRow)
    (hv1 : truthy r1.video_id = some vid) (hv2 : truthy r2.video_id = some vid)
    (hp1 : stagingParams r1 = .ok p1) (hp2 : stagingParams r2 = .ok p2)
    (hupl : p2.upload_date = p1.upload_date)
    (hfresh : vid ∉ keys db) :
    staging_table none db [r1, r2] =
      ([p2], .ok { inserted := 1, updated := 1, skipped := 0,
                   deleted := (keys db).dedup.length }) :=
  staging_duplicate_tiebreak db r1 r2 vid p1 p2 hv1 hv2 hp1 hp2 hupl hfresh

/-- Witness for the amended C3. -/
theorem claim_C3_tiebreak_amended_witness :
    staging_table none [rowB] [dupFirst, dupSecondSame] =
      ([dupP2], .ok { inserted := 1, updated := 1, skipped := 0, deleted := 1 }) :=
  claim_C3_tiebreak_amended [rowB] dupFirst dupSecondSame "xyz" dupP1 dupP2
    (by decide) (by decide) (by decide) (by decide) (by decide) (by decide)

/-- **C4** (counterexample): the claim asserts a record missing a required
non-identity field is skipped alone and the run continues. In the code the
missing `title` raises a `KeyError` that is only caught by the run-level
handler: the whole run aborts and rolls back — the subsequent valid record
`rayA` is not applied either. -/
theorem claim_C4_counterexample :
    staging_table none [] [badRec, rayA] = ([], .error .keyMissing) := by decide

/-- **C4** (amended): a reached record with a truthy id that lacks a required
non-identity field makes the mapping raise; the error aborts the whole run,
which rolls back (the committed table is unchanged and no other record of the
batch is applied). Only records with an absent/falsy identity key are
skipped. -/
theorem claim_C4_skip_amended (db : List StRow)
    (pre post : List RawRecord) (r : RawRecord)
    (hpre : ∀ q ∈ pre, (truthy q.video_id).isSome → ∃ p, stagingParams q = .ok p)
    (hv : (truthy r.video_id).isSome)
    (hbad : stagingParams r = .error .keyMissing) :
    staging_table none db (pre ++ r :: post) = (db, .error .keyMissing) :=
  staging_aborts_on_bad_record db pre post r hpre hv hbad

/-- Witness for the amended C4. -/
theorem claim_C4_skip_amended_witness :
    staging_table none [rowB] [rayA, badRec] = ([rowB], .error .keyMissing) :=
  claim_C4_skip_amended [rowB] [rayA] [] badRec
    (fun q hq _ => by
      rw [List.mem_singleton.mp hq]
      exact ⟨rowA, by decide⟩)
    (by decide) (by decide)

/-- **C6** (empty-source full deletion): reconciling any staging table state
against an empty source deletes every existing row — the table ends empty —
and the report reads inserted=0, updated=0, skipped=0 and deleted equal to the
pre-run key-set size. -/
theorem claim_C6_empty_source (db : List StRow) :
    staging_table none db [] =
      ([], .ok { inserted := 0, updated := 0, skipped := 0,
                 deleted := (keys db).dedup.length }) :=
  staging_empty_source db

/-- Witness for C6: a two-row table is fully deleted by an empty source. -/
theorem claim_C6_empty_source_witness :
    staging_table none [rowA, rowB] [] =
      ([], .ok { inserted := 0, updated := 0, skipped := 0, deleted := 2 }) :=
  claim_C6_empty_source [rowA, rowB]

/-- **C7** (idempotence): re-running the staging reconcile on the table a
first successful run produced yields inserted=0, deleted=0, updated equal to
the number of valid source records (and one skip per invalid record), and
leaves the table contents exactly as the first run left them. -/
theorem claim_C7_idempotence {db : List StRow} {raw : List RawRecord}
    {db1 : List StRow} {c1 : Counters}
    (h : staging_table none db raw = (db1, .ok c1)) :
    staging_table none db1 raw =
      (db1, .ok { inserted := 0, updated := (validRecs raw).length,
                  skipped := (invalidRecs raw).length, deleted := 0 }) :=
  staging_idempotent h

/-- Witness for C7: a concrete first run, then the second run checked. -/
theorem claim_C7_idempotence_witness :
    staging_table none [rowA] [rayA] =
      ([rowA], .ok { inserted := 0, updated := 1, skipped := 0, deleted := 0 }) :=
  claim_C7_idempotence
    (show staging_table none [] [rayA] =
        ([rowA], .ok { inserted := 1, updated := 0, skipped := 0, deleted := 0 })
      by decide)

/-- **C9** (counter accounting): on every successful run (staging or core),
inserted + updated + skipped equals the number of source records, and deleted
equals the cardinality of the pre-run key set minus the valid source ids. -/
theorem claim_C9_counter_invariant :
    (∀ (db : List StRow) (raw : List RawRecord) (rows' : List StRow) (c : Counters),
       staging_table none db raw = (rows', .ok c) →
       c.inserted + c.updated + c.skipped = raw.length ∧
       c.deleted = ((keys db).dedup.filter (fun x => decide (x ∉ validIds raw))).length) ∧
    (∀ (srows : List StRow) (db : List CoRow) (rows' : List CoRow) (c : Counters),
       core_table none srows db = (rows', .ok c) →
       c.inserted + c.updated + c.skipped = srows.length ∧
       c.deleted = ((coKeys db).dedup.filter (fun x => decide (x ∉ coValidIds srows))).length) :=
  ⟨fun _ _ _ _ h => staging_counters h, fun _ _ _ _ h => core_counters h⟩

/-- Witness for C9: concrete staging and core runs. -/
theorem claim_C9_counter_invariant_witness :
    (1 + 0 + 0 = ([rayA] : List RawRecord).length ∧
     (0 : Nat) = ((keys ([] : List StRow)).dedup.filter
        (fun x => decide (x ∉ validIds [rayA]))).length) ∧
    (1 + 0 + 0 = ([rowA] : List StRow).length ∧
     (0 : Nat) = ((coKeys ([] : List CoRow)).dedup.filter
        (fun x => decide (x ∉ coValidIds [rowA]))).length) :=
  ⟨claim_C9_counter_invariant.1 [] [rayA] [rowA]
      { inserted := 1, updated := 0, skipped := 0, deleted := 0 } (by decide),
   claim_C9_counter_invariant.2 [rowA] [] [coRowA]
      { inserted := 1, updated := 0, skipped := 0, deleted := 0 } (by decide)⟩

/-- **C10** (stale row on upload-timestamp change): the staging UPDATE matches
on both `Video_ID` and `Upload_Date`; for a source record whose id is present
but whose upload timestamp differs from the stored one, the update affects
zero rows, the run still completes successfully counting it as updated, and
the stored row (title `old title`, duration, counts) is unchanged — the
target does not reflect the source record (here titled `new title`). -/
theorem claim_C10_stale_update :
    staging_table none
        [{ video_id := "aaa", video_title := "old title",
           upload_date := "2026-01-01T00:00:00Z", duration := "PT1S" }]
        [{ video_id := some "aaa", title := some "new title",
           publishedAt := some "2026-02-02T00:00:00Z", duration := some "PT2S" }] =
      ([{ video_id := "aaa", video_title := "old title",
          upload_date := "2026-01-01T00:00:00Z", duration := "PT1S" }],
       .ok { inserted := 0, updated := 1, skipped := 0, deleted := 0 }) ∧
    "old title" ≠ "new title" := by decide

/-- **C5** (duration classification): for every record whose raw duration
string parses, the classifier normalizes the duration to total seconds and
labels the record `Shorts` exactly when that total is ≤ 60 and `Normal`
otherwise; `PT60S` parses to 60 (hence Shorts) and `PT15M33S` to 933 (hence
Normal); a record with an absent or empty duration is returned unchanged with
no error. -/
theorem claim_C5_duration_classification :
    (∀ (rec : CoreRec) (s : String) (secs : Nat),
        rec.Duration = some (.iso s) → parse_duration s = some secs →
        transform_duration rec =
          .ok { rec with
                Duration := some (.td secs)
                Video_Type := some (if secs ≤ 60 then "Shorts" else "Normal") }) ∧
    parse_duration "PT60S" = some 60 ∧
    parse_duration "PT15M33S" = some 933 ∧
    (∀ rec : CoreRec, rec.Duration = none ∨ rec.Duration = some (.iso "") →
        transform_duration rec = .ok rec) := by
  refine ⟨?_, by decide, by decide, ?_⟩
  · intro rec s secs hdur hparse
    simp only [transform_duration, hdur]
    by_cases hs : s = ""
    · exfalso
      have hnone : parse_duration "" = none := by decide
      rw [hs, hnone] at hparse
      cases hparse
    · rw [if_neg hs, hparse]
  · rintro rec (h | h) <;> simp [transform_duration, h]

/-- Witness for C5: the boundary string `PT60S` classifies as Shorts. -/
theorem claim_C5_duration_classification_witness :
    transform_duration { Duration := some (.iso "PT60S") } =
      .ok { Duration := some (.td 60),
            Video_Type := some (if 60 ≤ 60 then "Shorts" else "Normal") } :=
  claim_C5_duration_classification.1
    { Duration := some (.iso "PT60S") } "PT60S" 60 rfl (by decide)

/-- **C8** (daily-metrics upsert frame): the snapshot upsert succeeds whenever
the row carries its id; it never deletes a row (every pre-existing
`(Video_ID, Snapshot_Date, Ingested_At)` triple survives); when no row with
key `(vid, snapshot date)` exists the new row is appended with the store's
`now()` as `Ingested_At`; when one exists, positionally each row keeps its
`Video_ID`, `Snapshot_Date` and `Ingested_At`, the matching row gets exactly
the three count fields overwritten, and every other row is fully unchanged.
The snapshot-date key defaults to today when the caller supplies none
(`sd.getD today`). -/
theorem claim_C8_metrics_upsert (today now : String) (row : MetricsSrc)
    (vid : String) (sd : Option String) (tbl : List MRow)
    (hvid : row.Video_ID = some vid) :
    ∃ tbl', upsert_daily_metrics today now row sd tbl = .ok tbl' ∧
      (∀ w ∈ tbl, ∃ w' ∈ tbl', w'.video_id = w.video_id ∧
          w'.snapshot_date = w.snapshot_date ∧ w'.ingested_at = w.ingested_at) ∧
      ((∀ w ∈ tbl, ¬(w.video_id = vid ∧ w.snapshot_date = sd.getD today)) →
        tbl' = tbl ++ [{ video_id := vid, snapshot_date := sd.getD today,
                         video_views := row.Video_Views,
                         likes_count := row.Likes_Count,
                         comments_count := row.Comments_Count,
                         ingested_at := now }]) ∧
      ((∃ w ∈ tbl, w.video_id = vid ∧ w.snapshot_date = sd.getD today) →
        tbl'.length = tbl.length ∧
        ∀ i (hi : i < tbl.length) (hi' : i < tbl'.length),
          (tbl'.get ⟨i, hi'⟩).video_id = (tbl.get ⟨i, hi⟩).video_id ∧
          (tbl'.get ⟨i, hi'⟩).snapshot_date = (tbl.get ⟨i, hi⟩).snapshot_date ∧
          (tbl'.get ⟨i, hi'⟩).ingested_at = (tbl.get ⟨i, hi⟩).ingested_at ∧
          (((tbl.get ⟨i, hi⟩).video_id = vid ∧
            (tbl.get ⟨i, hi⟩).snapshot_date = sd.getD today) →
              (tbl'.get ⟨i, hi'⟩).video_views = row.Video_Views ∧
              (tbl'.get ⟨i, hi'⟩).likes_count = row.Likes_Count ∧
              (tbl'.get ⟨i, hi'⟩).comments_count = row.Comments_Count) ∧
          (¬((tbl.get ⟨i, hi⟩).video_id = vid ∧
             (tbl.get ⟨i, hi⟩).snapshot_date = sd.getD today) →
              tbl'.get ⟨i, hi'⟩ = tbl.get ⟨i, hi⟩)) := by
  have hbody : upsert_daily_metrics today now row sd tbl =
      (if tbl.any (fun w => decide (w.video_id = vid ∧ w.snapshot_date = sd.getD today)) then
        .ok (tbl.map (fun w =>
          if w.video_id = vid ∧ w.snapshot_date = sd.getD today then
            { w with video_views := row.Video_Views, likes_count := row.Likes_Count,
                     comments_count := row.Comments_Count }
          else w))
      else
        .ok (tbl ++ [{ video_id := vid, snapshot_date := sd.getD today,
                       video_views := row.Video_Views, likes_count := row.Likes_Count,
                       comments_count := row.Comments_Count, ingested_at := now }])) := by
    simp only [upsert_daily_metrics, hvid, req, Bind.bind, Except.bind]
  by_cases hany : tbl.any (fun w => decide (w.video_id = vid ∧ w.snapshot_date = sd.getD today))
  · rw [if_pos hany] at hbody
    refine ⟨_, hbody, ?_, ?_, ?_⟩
    · intro w hw
      refine ⟨_, List.mem_map_of_mem _ hw, ?_⟩
      split <;> simp
    · intro hno
      obtain ⟨w, hw, hmatch⟩ := List.any_eq_true.mp hany
      exact absurd (of_decide_eq_true hmatch) (hno w hw)
    · intro _
      refine ⟨by simp, ?_⟩
      intro i hi hi'
      have hget : (tbl.map (fun w =>
          if w.video_id = vid ∧ w.snapshot_date = sd.getD today then
            { w with video_views := row.Video_Views, likes_count := row.Likes_Count,
                     comments_count := row.Comments_Count }
          else w)).get ⟨i, hi'⟩ =
          (if (tbl.get ⟨i, hi⟩).video_id = vid ∧
              (tbl.get ⟨i, hi⟩).snapshot_date = sd.getD today then
            { tbl.get ⟨i, hi⟩ with
              video_views := row.Video_Views
              likes_count := row.Likes_Count
              comments_count := row.Comments_Count }
          else tbl.get ⟨i, hi⟩) := List.get_map ..
      rw [hget]
      by_cases hm : (tbl.get ⟨i, hi⟩).video_id = vid ∧
          (tbl.get ⟨i, hi⟩).snapshot_date = sd.getD today
      · rw [if_pos hm]
        refine ⟨rfl, rfl, rfl, fun _ => ⟨rfl, rfl, rfl⟩, fun hc => absurd hm hc⟩
      · rw [if_neg hm]
        exact ⟨rfl, rfl, rfl, fun hc => absurd hc hm, fun _ => rfl⟩
  · rw [if_neg hany] at hbody
    refine ⟨_, hbody, ?_, fun _ => rfl, ?_⟩
    · intro w hw
      exact ⟨w, List.mem_append_left _ hw, rfl, rfl, rfl⟩
    · rintro ⟨w, hw, hmatch⟩
      exact absurd (List.any_eq_true.mpr ⟨w, hw, decide_eq_true hmatch⟩) hany

/-- Witness for C8: upsert into an empty metrics table with no supplied
snapshot date. -/
theorem claim_C8_metrics_upsert_witness :
    ∃ tbl', upsert_daily_metrics "2026-01-27" "T0"
        { Video_ID := some "aaa", Video_Views := some 5,
          Likes_Count := some 2, Comments_Count := some 1 } none [] = .ok tbl' ∧
      (∀ w ∈ ([] : List MRow), ∃ w' ∈ tbl', w'.video_id = w.video_id ∧
          w'.snapshot_date = w.snapshot_date ∧ w'.ingested_at = w.ingested_at) ∧
      ((∀ w ∈ ([] : List MRow),
          ¬(w.video_id = "aaa" ∧ w.snapshot_date = (none : Option String).getD "2026-01-27")) →
        tbl' = [] ++ [{ video_id := "aaa",
                        snapshot_date := (none : Option String).getD "2026-01-27",
                        video_views := some 5, likes_count := some 2,
                        comments_count := some 1, ingested_at := "T0" }]) ∧
      ((∃ w ∈ ([] : List MRow), w.video_id = "aaa" ∧
          w.snapshot_date = (none : Option String).getD "2026-01-27") →
        tbl'.length = ([] : List MRow).length ∧
        ∀ i (hi : i < ([] : List MRow).length) (hi' : i < tbl'.length),
          (tbl'.get ⟨i, hi'⟩).video_id = (([] : List MRow).get ⟨i, hi⟩).video_id ∧
          (tbl'.get ⟨i, hi'⟩).snapshot_date = (([] : List MRow).get ⟨i, hi⟩).snapshot_date ∧
          (tbl'.get ⟨i, hi'⟩).ingested_at = (([] : List MRow).get ⟨i, hi⟩).ingested_at ∧
          (((([] : List MRow).get ⟨i, hi⟩).video_id = "aaa" ∧
            (([] : List MRow).get ⟨i, hi⟩).snapshot_date = (none : Option String).getD "2026-01-27") →
              (tbl'.get ⟨i, hi'⟩).video_views = some 5 ∧
              (tbl'.get ⟨i, hi'⟩).likes_count = some 2 ∧
              (tbl'.get ⟨i, hi'⟩).comments_count = some 1) ∧
          (¬((([] : List MRow).get ⟨i, hi⟩).video_id = "aaa" ∧
             (([] : List MRow).get ⟨i, hi⟩).snapshot_date = (none : Option String).getD "2026-01-27") →
              tbl'.get ⟨i, hi'⟩ = ([] : List MRow).get ⟨i, hi⟩)) :=
  claim_C8_metrics_upsert "2026-01-27" "T0"
    { Video_ID := some "aaa", Video_Views := some 5,
      Likes_Count := some 2, Comments_Count := some 1 } "aaa" none [] rfl

end YtElt
